/-
Verification of the content-extraction and render-orchestration core of the
technical-seo-analyzer service.

The development shallowly embeds:
  * `app/scraper/helpers.py`   — text cleaning / whitespace normalization /
                                 URL normalization (`clean_text`,
                                 `normalize_whitespace`, `dedupe`,
                                 `strip_tracking_params`, `normalize_url`);
  * `app/scraper/extractor.py` — the DOM-walking content extractor
                                 (`walk_text_nodes`, `extract_full_text`,
                                 `extract_content` and the `_extract_*`
                                 helpers);
  * `app/scraper/renderer.py`  — the control flow of
                                 `get_rendered_html_async` and the
                                 `_progressive_scroll` loop.

Modelling conventions:
  * Python `str` values are modelled as Lean `String`; character-level string
    operations are implemented over `String.data : List Char`, mirroring the
    Python semantics character by character (ASCII fragment: every string in
    this development is plain ASCII).
  * The DOM produced by BeautifulSoup/lxml is modelled as a closed tree of
    node variants (element / text / comment).  BeautifulSoup's value-based
    `Tag.__eq__` is modelled by structural equality of trees.
  * External library functions that the source calls but whose full behavior
    is out of scope (html.unescape, unicodedata NFKC normalization, the raw
    regex/JSON strategies of `extract_full_text` that operate on the raw
    markup string, the Playwright browser API, urllib's parse/unparse round
    trip) are modelled explicitly and are documented at their definitions.
-/
import Mathlib

set_option maxRecDepth 8000
set_option maxHeartbeats 4000000

namespace SeoScraper

/-! ## Character and string primitives (Python `str` semantics, ASCII) -/

/-- Python whitespace for `str.split()`, `str.strip()`, and the regex class
`\s`, restricted to ASCII: space, tab, newline, carriage return, vertical
tab, form feed. -/
def pyIsSpace (c : Char) : Bool :=
  c == ' ' || c == '\t' || c == '\n' || c == '\r' || c == '\x0b' || c == '\x0c'

/-- ASCII lowercasing of one character: the restriction of Python
`str.lower()` to ASCII input. -/
def lowerChar : Char → Char
  | 'A' => 'a' | 'B' => 'b' | 'C' => 'c' | 'D' => 'd' | 'E' => 'e'
  | 'F' => 'f' | 'G' => 'g' | 'H' => 'h' | 'I' => 'i' | 'J' => 'j'
  | 'K' => 'k' | 'L' => 'l' | 'M' => 'm' | 'N' => 'n' | 'O' => 'o'
  | 'P' => 'p' | 'Q' => 'q' | 'R' => 'r' | 'S' => 's' | 'T' => 't'
  | 'U' => 'u' | 'V' => 'v' | 'W' => 'w' | 'X' => 'x' | 'Y' => 'y'
  | 'Z' => 'z'
  | c => c

/-- Python `s.lower()` (ASCII fragment). -/
def pyLower (s : String) : String := ⟨s.data.map lowerChar⟩

/-- `p` is a (character) prefix of `l`. -/
def listStarts : List Char → List Char → Bool
  | [], _ => true
  | _ :: _, [] => false
  | a :: ps, b :: ls => a == b && listStarts ps ls

/-- Python `s.startswith(p)`. -/
def startsWithStr (p s : String) : Bool := listStarts p.data s.data

/-- Python `p in s` (substring containment) on character lists. -/
def listContainsSub (pat : List Char) : List Char → Bool
  | [] => listStarts pat []
  | c :: rest => listStarts pat (c :: rest) || listContainsSub pat rest

/-- Python `p in s` (substring containment). -/
def containsSubStr (pat s : String) : Bool := listContainsSub pat.data s.data

/-- Python `s.strip()`: drop leading and trailing whitespace. -/
def pyStrip (s : String) : String :=
  ⟨((s.data.dropWhile pyIsSpace).reverse.dropWhile pyIsSpace).reverse⟩

/-- `p` is a prefix of `l`, on token lists. -/
def tokListStarts : List String → List String → Bool
  | [], _ => true
  | _ :: _, [] => false
  | a :: ps, b :: ls => a == b && tokListStarts ps ls

/-- `pat` occurs as a contiguous run inside `l`, on token lists (used to
state that one text "contains" another at whitespace-token granularity). -/
def tokListContains (pat : List String) : List String → Bool
  | [] => tokListStarts pat []
  | c :: rest => tokListStarts pat (c :: rest) || tokListContains pat rest

/-- Python `s.split()` (no separator): whitespace-delimited tokens, no
empties.  Worker: `cur` is the current token (reversed), `acc` the finished
tokens (reversed). -/
def splitWsGo : List Char → List Char → List String → List String
  | [], cur, acc =>
      if cur.isEmpty then acc.reverse else (String.mk cur.reverse :: acc).reverse
  | c :: rest, cur, acc =>
      if pyIsSpace c then
        if cur.isEmpty then splitWsGo rest [] acc
        else splitWsGo rest [] (String.mk cur.reverse :: acc)
      else splitWsGo rest (c :: cur) acc

/-- Python `s.split()`. -/
def splitWs (s : String) : List String := splitWsGo s.data [] []

/-- Number of whitespace-delimited tokens: `len(s.split())`
(= `helpers.count_words` for nonempty strings). -/
def wordCountOf (s : String) : Nat := (splitWs s).length

/-- Worker for `listReplace`, structurally recursive on a fuel argument.
When the pattern matches, at least one input character is consumed
alongside one unit of fuel, so fuel `≥` input length never runs out. -/
def listReplaceGo (pat repl : List Char) : Nat → List Char → List Char
  | _, [] => []
  | 0, l => l
  | fuel + 1, c :: rest =>
      if !pat.isEmpty && listStarts pat (c :: rest) then
        repl ++ listReplaceGo pat repl fuel ((c :: rest).drop pat.length)
      else
        c :: listReplaceGo pat repl fuel rest

/-- Python `s.replace(pat, repl)` for a nonempty `pat`: replace
non-overlapping occurrences left to right.  (For `pat = []` the Python
semantics differs; this development only calls it with nonempty patterns.) -/
def listReplace (pat repl l : List Char) : List Char :=
  listReplaceGo pat repl l.length l

/-- Python `s.replace(pat, repl)`. -/
def replaceStr (pat repl s : String) : String :=
  ⟨listReplace pat.data repl.data s.data⟩

/-! ## The individual regex substitutions used by
`helpers.clean_text` and `helpers.normalize_whitespace` -/

/-- `re.sub(r'[\t\r\f\v]+', ' ', s)`: collapse each run of tab / carriage
return / form feed / vertical tab into one space.  `inRun` records whether
the previous character belonged to such a run. -/
def squashTrfvGo (inRun : Bool) : List Char → List Char
  | [] => []
  | c :: rest =>
      if c == '\t' || c == '\r' || c == '\x0c' || c == '\x0b' then
        if inRun then squashTrfvGo true rest else ' ' :: squashTrfvGo true rest
      else c :: squashTrfvGo false rest

/-- Rewrite one maximal whitespace run under the pattern
`\n\s*...\s*\n` (with `minNl` required newlines): when the run holds at
least `minNl` newlines, the regex match spans from the run's first newline
through its last newline (greedy `\s*`/`\n+` with backtracking) and is
replaced by exactly two newlines; whitespace before the first and after the
last newline is outside the match and survives. -/
def nlRunSub (minNl : Nat) (run : List Char) : List Char :=
  if minNl ≤ (run.filter (fun c => c == '\n')).length then
    run.takeWhile (fun c => !(c == '\n')) ++
      '\n' :: '\n' :: (run.reverse.takeWhile (fun c => !(c == '\n'))).reverse
  else run

/-- Scanner shared by the two newline substitutions: collect each maximal
whitespace run into `run` and flush it through `nlRunSub`.  A regex match of
`\n\s*\n` (resp. `\n\s*\n\s*\n+`) can never cross a non-whitespace
character, so processing run by run is equivalent to the left-to-right
regex scan. -/
def nlRunGo (minNl : Nat) (run : List Char) : List Char → List Char
  | [] => nlRunSub minNl run
  | c :: rest =>
      if pyIsSpace c then nlRunGo minNl (run ++ [c]) rest
      else nlRunSub minNl run ++ c :: nlRunGo minNl [] rest

/-- `re.sub(r'\n\s*\n', '\n\n', s)`: a newline joined by whitespace to a
later newline becomes exactly two newlines. -/
def nlPairSub (l : List Char) : List Char := nlRunGo 2 [] l

/-- `re.sub(r'\n\s*\n\s*\n+', '\n\n', s)`: three or more newlines joined by
whitespace become exactly two newlines. -/
def nlTripleSub (l : List Char) : List Char := nlRunGo 3 [] l

/-- `re.sub(r'(?<!\n)\n(?!\n)', ' ', s)`: a lone newline (neither preceded
nor followed by a newline in the *original* string) becomes a space.
`prevIsNl` tracks whether the previous original character was a newline. -/
def singleNlGo (prevIsNl : Bool) : List Char → List Char
  | [] => []
  | c :: rest =>
      if c == '\n' && !prevIsNl && !(rest.head? == some '\n') then
        ' ' :: singleNlGo true rest
      else c :: singleNlGo (c == '\n') rest

/-- `re.sub(r' +', ' ', s)`: collapse runs of spaces (spaces only). -/
def squashSpacesGo (inRun : Bool) : List Char → List Char
  | [] => []
  | c :: rest =>
      if c == ' ' then
        if inRun then squashSpacesGo true rest else ' ' :: squashSpacesGo true rest
      else c :: squashSpacesGo false rest

/-- Control characters in Unicode category `Cc` (ASCII fragment:
`U+0000..U+001F` and `U+007F..U+009F`). -/
def isCcChar (c : Char) : Bool :=
  c.toNat < 32 || (127 ≤ c.toNat && c.toNat ≤ 159)

/-- `html.unescape` from the Python standard library.  Modelled as the
identity: every string manipulated in this development is entity-free, and
on entity-free text `html.unescape` is the identity. -/
def htmlUnescape (s : String) : String := s

/-- `unicodedata.normalize('NFKC', ·)` from the Python standard library.
Modelled as the identity: every string in this development is plain ASCII,
and NFKC is the identity on ASCII. -/
def nfkcNormalize (s : String) : String := s

/-- `helpers.clean_text`: decode entities, NFKC-normalize, drop control
characters (keeping `\n`, `\t`, `\r`), collapse `[\t\r\f\v]+` to a space,
normalize blank lines, turn lone newlines into spaces, collapse spaces,
strip. -/
def cleanText (s : String) : String :=
  let t1 := nfkcNormalize (htmlUnescape s)
  let t2 := t1.data.filter (fun c => !isCcChar c || (c == '\n' || c == '\t' || c == '\r'))
  let t3 := squashTrfvGo false t2
  let t4 := nlPairSub t3
  let t5 := singleNlGo false t4
  let t6 := squashSpacesGo false t5
  pyStrip ⟨t6⟩

/-- Python `s.split(sep)` for the separator `"\n\n"`: split on each
non-overlapping occurrence, keeping empty parts. -/
def splitNl2 : List Char → List (List Char)
  | [] => [[]]
  | '\n' :: '\n' :: rest => [] :: splitNl2 rest
  | c :: rest =>
      match splitNl2 rest with
      | [] => [[c]]
      | p :: ps => (c :: p) :: ps

/-- `helpers.normalize_whitespace`: collapse `[\t\r\f\v]+`, normalize runs
of three or more newlines to a paragraph break, then per paragraph turn
newlines into spaces, collapse spaces and strip, dropping empty paragraphs;
paragraphs are rejoined with `"\n\n"` and the result stripped. -/
def normalizeWhitespace (s : String) : String :=
  let t1 := squashTrfvGo false s.data
  let t2 := nlTripleSub t1
  let parts := splitNl2 t2
  let cleaned := (parts.map (fun p =>
      pyStrip ⟨squashSpacesGo false (p.map (fun c => if c == '\n' then ' ' else c))⟩)).filter
    (fun l => l != "")
  pyStrip (String.intercalate "\n\n" cleaned)

/-- `helpers.dedupe` specialized to strings (the only element type the
extractor uses it at): drop duplicates, keeping first occurrences in
order. -/
def dedupeStr : List String → List String :=
  go []
where
  go (seen : List String) : List String → List String
    | [] => []
    | x :: xs => if seen.contains x then go seen xs else x :: go (x :: seen) xs

/-- `len(re.findall(r'[.!?]+(?:\s|$)', s))`: the approximate sentence count
of `extract_content`.  The regex matches exactly once per maximal run of
terminal punctuation whose following character is whitespace or the end of
the string (the consumed whitespace character can never start the next
match), so the count is computed by a single scan tracking whether the
previous character belonged to a punctuation run. -/
def sentCountGo (inRun : Bool) : List Char → Nat
  | [] => if inRun then 1 else 0
  | c :: rest =>
      if c == '.' || c == '!' || c == '?' then sentCountGo true rest
      else if pyIsSpace c then (if inRun then 1 else 0) + sentCountGo false rest
      else sentCountGo false rest

/-- Sentence count of a string. -/
def sentCount (s : String) : Nat := sentCountGo false s.data

/-! ## The DOM model

BeautifulSoup's parse tree is modelled as a closed tree of node variants
(`Tag` / `NavigableString` / `Comment`), as the design notes of the spec
prescribe.  Attributes are an association list; multi-valued handling of
`class` is reproduced where the source relies on it. -/

inductive Node where
  /-- A `Tag`: name, attributes (first binding wins on lookup), children in
  document order. -/
  | elem (tag : String) (attrs : List (String × String)) (children : List Node)
  /-- A `NavigableString` (text node). -/
  | text (s : String)
  /-- A `Comment`. -/
  | comment (s : String)

/-- Tag name of a node (`""` for non-elements; BeautifulSoup's
`NavigableString.name` is `None`). -/
def Node.tagName : Node → String
  | .elem t _ _ => t
  | _ => ""

/-- Children of a node. -/
def Node.childNodes : Node → List Node
  | .elem _ _ cs => cs
  | _ => []

/-- Attribute lookup, `tag.get(name)`: `none` when absent. -/
def Node.attrFind (n : Node) (name : String) : Option String :=
  match n with
  | .elem _ attrs _ => (attrs.find? (fun p => p.1 == name)).map (fun p => p.2)
  | _ => none

/-- Attribute lookup with default `''`, `tag.get(name, '')`. -/
def Node.attrGet (n : Node) (name : String) : String :=
  (n.attrFind name).getD ""

/-- The multi-valued `class` attribute, `tag.get('class', [])`:
BeautifulSoup splits the raw attribute value on whitespace. -/
def Node.classTokens (n : Node) : List String :=
  splitWs (n.attrGet "class")

mutual

/-- Structural equality of trees: the model of BeautifulSoup's value-based
`Tag.__eq__` / `NavigableString.__eq__` (two nodes are equal when they have
the same name, attributes and contents). -/
def nodeBeq : Node → Node → Bool
  | .elem t a cs, .elem t2 a2 cs2 => t == t2 && a == a2 && nodesBeq cs cs2
  | .text s, .text s2 => s == s2
  | .comment s, .comment s2 => s == s2
  | _, _ => false

def nodesBeq : List Node → List Node → Bool
  | [], [] => true
  | c :: cs, d :: ds => nodeBeq c d && nodesBeq cs ds
  | _, _ => false

end

mutual

/-- `tag.get_text()` (separator `''`, no strip): concatenation of every
text-node string in the subtree; comments contribute nothing. -/
def getTextN : Node → String
  | .text s => s
  | .comment _ => ""
  | .elem _ _ cs => getTextL cs

def getTextL : List Node → String
  | [] => ""
  | c :: cs => getTextN c ++ getTextL cs

end

mutual

/-- All elements of a subtree paired with the tag name of their parent, in
document (pre-)order, including the root node itself (paired with
`parentTag`).  `find_all` / `find` over a tag or over the whole soup are
projections of this traversal. -/
def elemsWithParentN (parentTag : String) : Node → List (String × Node)
  | .elem t a cs => (parentTag, .elem t a cs) :: elemsWithParentL t cs
  | _ => []

/-- `elemsWithParentN` over a forest of siblings. -/
def elemsWithParentL (parentTag : String) : List Node → List (String × Node)
  | [] => []
  | c :: cs => elemsWithParentN parentTag c ++ elemsWithParentL parentTag cs

end

/-- `tag.find_all(names)`: descendant elements (the tag itself excluded)
whose name is in `names`, in document order. -/
def Node.findAllDesc (n : Node) (names : List String) : List Node :=
  ((elemsWithParentL n.tagName n.childNodes).filter
    (fun p => names.contains p.2.tagName)).map (fun p => p.2)

/-- `tag.find(names)`: first such descendant. -/
def Node.findFirstDesc (n : Node) (names : List String) : Option Node :=
  (n.findAllDesc names).head?

/-- Direct element children with a given name,
`tag.find_all(name, recursive=False)`. -/
def Node.directChildren (n : Node) (name : String) : List Node :=
  n.childNodes.filter (fun c => c.tagName == name)

/-! ## `extractor.py`: noise detection, hidden detection, selectors -/

/-- `extractor.SKIP_TAGS`. -/
def SKIP_TAGS : List String :=
  ["script", "style", "noscript", "meta", "link",
   "svg", "path", "canvas", "video", "audio", "source",
   "template", "iframe"]

/-- `extractor.NOISE_PATTERNS` applied to the combined class/id string:
each regex of the source list is an anchored or unanchored `re.search`,
written out here pattern by pattern (`^nav$` is a full-string match,
`^menu` a prefix match, `comment` a substring match, and so on). -/
def noisePatternHit (combined : String) : Bool :=
  combined == "nav" ||
  startsWithStr "menu" combined ||
  startsWithStr "sidebar" combined ||
  startsWithStr "widget" combined ||
  combined == "footer" ||
  combined == "header" ||
  containsSubStr "comment" combined ||
  containsSubStr "social" combined ||
  containsSubStr "share" combined ||
  containsSubStr "related-post" combined ||
  containsSubStr "advertisement" combined ||
  startsWithStr "ad-" combined ||
  startsWithStr "ads" combined ||
  containsSubStr "cookie" combined ||
  containsSubStr "popup" combined ||
  containsSubStr "modal" combined ||
  containsSubStr "overlay" combined

/-- `extractor._is_noise_element`: nav/footer/aside tags, noise-pattern
class/id tokens (the combined string is
`' '.join(classes) + ' ' + id`, lowercased), or a landmark ARIA role. -/
def isNoiseElement (n : Node) : Bool :=
  n.tagName == "nav" || n.tagName == "footer" || n.tagName == "aside" ||
  noisePatternHit
    (pyLower (String.intercalate " " n.classTokens ++ " " ++ n.attrGet "id")) ||
  (let role := pyLower (n.attrGet "role")
   role == "navigation" || role == "banner" || role == "contentinfo" ||
     role == "complementary")

/-- `extractor._is_hidden`: inline `display:none`/`visibility:hidden`
(spaces removed before the substring test), a `hidden` attribute, or
`aria-hidden="true"`. -/
def isHidden (n : Node) : Bool :=
  (let style := ⟨(pyLower (n.attrGet "style")).data.filter (fun c => !(c == ' '))⟩
   containsSubStr "display:none" style || containsSubStr "visibility:hidden" style) ||
  (match n with
   | .elem _ attrs _ => (attrs.find? (fun p => p.1 == "hidden")).isSome
   | _ => false) ||
  n.attrFind "aria-hidden" == some "true"

/-- The CSS selectors the extractor uses, as a closed datatype: a tag
selector, a class-token selector, an id selector, or the attribute
selector `[role="main"]`. -/
inductive Sel where
  | tagSel (t : String)
  | clsSel (c : String)
  | idSel (i : String)
  | roleMain

/-- Whether an element matches a selector (soupsieve semantics: class
selectors match any class token, id and attribute values exactly). -/
def selMatches : Sel → Node → Bool
  | .tagSel t, n => n.tagName == t
  | .clsSel c, n => n.classTokens.contains c
  | .idSel i, n => n.attrGet "id" == i
  | .roleMain, n => n.attrGet "role" == "main"

/-- `extractor.CONTENT_SELECTORS`, in priority order. -/
def CONTENT_SELECTORS : List Sel :=
  [.tagSel "article",
   .roleMain,
   .tagSel "main",
   .clsSel "entry-content",
   .clsSel "post-content",
   .clsSel "article-content",
   .clsSel "content-area",
   .clsSel "page-content",
   .clsSel "main-content",
   .clsSel "wp-block-post-content",
   .clsSel "elementor-widget-theme-post-content",
   .clsSel "et_pb_post_content",
   .idSel "content",
   .clsSel "content",
   .clsSel "post",
   .clsSel "article",
   .clsSel "hentry",
   .clsSel "single-post",
   .clsSel "blog-post"]

/-- All elements of the document, in document order (the soup's own
traversal; the parent tag of a top-level node is BeautifulSoup's
`'[document]'`). -/
def docElems (doc : List Node) : List (String × Node) :=
  elemsWithParentL "[document]" doc

/-- `soup.select_one(sel)`: first matching element in document order. -/
def selectOne (sel : Sel) (doc : List Node) : Option Node :=
  ((docElems doc).map (fun p => p.2)).find? (selMatches sel)

/-- `soup.body`: the first `body` element of the document. -/
def findBody (doc : List Node) : Option Node :=
  ((docElems doc).map (fun p => p.2)).find? (fun n => n.tagName == "body")

/-- `soup.find(name)` at document level. -/
def docFind (doc : List Node) (name : String) : Option Node :=
  ((docElems doc).map (fun p => p.2)).find? (fun n => n.tagName == name)

/-! ## `extractor.walk_text_nodes` -/

/-- Block-level tags after which `walk_text_nodes` appends a `'\n'`
marker. -/
def WALK_BLOCK_TAGS : List String :=
  ["p", "div", "h1", "h2", "h3", "h4", "h5", "h6",
   "li", "tr", "blockquote", "section", "article"]

mutual

/-- One step of `walk_text_nodes.walk`'s `for child in node.children` loop:
process child `c` against the accumulated `texts` list.  Text nodes
contribute their stripped text when longer than one character; comments are
skipped; element children are skipped when tag-excluded, hidden, or (when
`skipNoise`) noise-matched, and otherwise recursed into, with a `'\n'`
appended after block-level children when the list is nonempty and does not
already end in `'\n'`. -/
def walkChild (skipNoise : Bool) (texts : List String) : Node → List String
  | .text s =>
      let t := pyStrip s
      if 1 < t.length then texts ++ [t] else texts
  | .comment _ => texts
  | .elem tag a cs =>
      if SKIP_TAGS.contains tag then texts
      else if isHidden (.elem tag a cs) then texts
      else if skipNoise && isNoiseElement (.elem tag a cs) then texts
      else
        let texts2 := walkChildren skipNoise texts cs
        if WALK_BLOCK_TAGS.contains tag &&
            !texts2.isEmpty && !(texts2.getLast? == some "\n") then
          texts2 ++ ["\n"]
        else texts2

/-- `walk_text_nodes.walk` over a children list. -/
def walkChildren (skipNoise : Bool) (texts : List String) : List Node → List String
  | [] => texts
  | c :: cs => walkChildren skipNoise (walkChild skipNoise texts c) cs

end

/-- `extractor.walk_text_nodes(element, skip_noise)`: the walk starts from
the element's children (`walk(element)` iterates `element.children`); at
the soup level the children are the document's top-level nodes. -/
def walkTextNodes (skipNoise : Bool) (children : List Node) : List String :=
  walkChildren skipNoise [] children

/-! ## `extractor.extract_full_text` -/

/-- One parsed markup input to the extractor.  `doc` is the BeautifulSoup
parse tree (`BeautifulSoup(html, 'lxml')`).  The other three fields carry
the outputs of the three auxiliary strategies of `extract_full_text` that
operate on the *raw markup string* rather than on the tree —
`extract_gutenberg_content` (a regex over raw Gutenberg block comments),
`extract_from_data_attributes` and `extract_from_json_ld` (JSON parsing) —
whose byte-level behavior is outside the tree abstraction; they are
empty strings for every document in this development, none of which carries
such markup. -/
structure Markup where
  doc : List Node
  gutenbergText : String := ""
  dataAttrsText : String := ""
  jsonLdText : String := ""

/-- The children list the walk iterates for a given search area: the main
content candidate's children, else the body's children, else the document's
top-level nodes (`search_area = main_content or soup.body or soup`). -/
def areaChildrenOf (mainContent : Option Node) (doc : List Node) : List Node :=
  match mainContent with
  | some n => n.childNodes
  | none =>
      match findBody doc with
      | some b => b.childNodes
      | none => doc

/-- The main-content candidate of `extract_full_text` / `extract_content`:
the `for selector in CONTENT_SELECTORS: ... break` loop, i.e. the first
selector (in priority order) with any match in the document. -/
def mainContentOf (doc : List Node) : Option Node :=
  CONTENT_SELECTORS.findSome? (fun sel => selectOne sel doc)

/-- The DOM-walk strategy text of `extract_full_text`:
`normalize_whitespace(' '.join(walk_text_nodes(search_area, skip_noise)))`. -/
def domWalkText (doc : List Node) (includeNoise : Bool) : String :=
  normalizeWhitespace (String.intercalate " "
    (walkTextNodes (!includeNoise) (areaChildrenOf (mainContentOf doc) doc)))

/-- The `Choose best result` fold of `extract_full_text`: keep the text
with the strictly greatest whitespace-token count, starting from the empty
string with count `0` (so earlier strategies win ties). -/
def bestResult : List String → String :=
  go "" 0
where
  go (bestText : String) (bestCount : Nat) : List String → String
    | [] => bestText
    | t :: ts =>
        if bestCount < wordCountOf t then go t (wordCountOf t) ts
        else go bestText bestCount ts

/-- `extractor.extract_full_text(html, include_noise)`: the candidate list
is the DOM walk over the localized area, the three raw-markup strategies
when nonempty, and — whenever the document has a body — a full walk of the
body with noise included; the longest candidate wins.  (The source's
`if not html` guard is the `Option Markup` case of `extract_content`
below; a `Markup` value always stands for nonempty markup.) -/
def extractFullText (m : Markup) (includeNoise : Bool) : String :=
  let results :=
    [domWalkText m.doc includeNoise] ++
    (if m.gutenbergText != "" then [m.gutenbergText] else []) ++
    (if m.dataAttrsText != "" then [m.dataAttrsText] else []) ++
    (if m.jsonLdText != "" then [m.jsonLdText] else []) ++
    (match findBody m.doc with
     | some b =>
         [normalizeWhitespace (String.intercalate " "
           (walkTextNodes false b.childNodes))]
     | none => [])
  bestResult results

/-- The full text chosen by `extract_content`: `extract_full_text` without
noise; when the result has fewer than 100 whitespace tokens, rerun with
noise included and prefer that result when its token count exceeds 1.5×
the first one (`len(with_noise.split()) > len(full_text.split()) * 1.5`,
an exact comparison on naturals via `2·a > 3·b`). -/
def chosenFullText (m : Markup) : String :=
  let ft := extractFullText m false
  if wordCountOf ft < 100 then
    let ftNoise := extractFullText m true
    if 3 * wordCountOf ft < 2 * wordCountOf ftNoise then ftNoise else ft
  else ft

/-! ## `extract_content`: structured sub-extraction

The `html` string fields the source stores alongside each record
(`'html': str(tag)`) are serializations for downstream display; they are
not modelled (no claim concerns them). -/

mutual

/-- `tag.decompose()` applied to every `script`/`style`/`noscript` element
of one subtree, as `extract_content` does before structured extraction
(`none` when the node itself is decomposed). -/
def stripScriptsN : Node → Option Node
  | .elem t a cs =>
      if t == "script" || t == "style" || t == "noscript" then none
      else some (.elem t a (stripScriptsL cs))
  | n => some n

/-- `stripScriptsN` over a forest. -/
def stripScriptsL : List Node → List Node
  | [] => []
  | c :: cs =>
      match stripScriptsN c with
      | some c2 => c2 :: stripScriptsL cs
      | none => stripScriptsL cs

end

/-- One extracted heading. -/
structure Heading where
  level : Nat
  tag : String
  text : String
  id : String
deriving DecidableEq, Repr

/-- One extracted paragraph. -/
structure Paragraph where
  text : String
  word_count : Nat
deriving DecidableEq, Repr

/-- One extracted list (`type` is `"ordered"` or `"unordered"`; items are
the cleaned texts of direct `li` children). -/
structure ListBlock where
  type : String
  tag : String
  items : List String
deriving DecidableEq, Repr

/-- One extracted table. -/
structure TableBlock where
  headers : List String
  rows : List (List String)
deriving DecidableEq, Repr

/-- One extracted blockquote (`citation` is `''` when no `cite` child). -/
structure Blockquote where
  text : String
  citation : String
deriving DecidableEq, Repr

/-- The emphasis record. -/
structure Emphasis where
  strong : List String
  em : List String
deriving DecidableEq, Repr

/-- One entry of `elements_in_order` (`level` is set for headings,
`list_type`/`items` for lists). -/
structure OrderedElement where
  type : String
  tag : String
  text : String
  level : Option Nat := none
  list_type : Option String := none
  items : Option (List String) := none
deriving DecidableEq, Repr

/-- The metadata record. -/
structure Metadata where
  title : String
  meta_description : String
  word_count : Nat
  character_count : Nat
  sentence_count : Nat
deriving DecidableEq, Repr

/-- The `StructuredDocument` returned by `extract_content`. -/
structure ExtractResult where
  headings : List Heading
  paragraphs : List Paragraph
  lists : List ListBlock
  tables : List TableBlock
  blockquotes : List Blockquote
  emphasis : Emphasis
  full_text : String
  elements_in_order : List OrderedElement
  metadata : Metadata
deriving DecidableEq, Repr

/-- The heading tag names. -/
def HEADING_TAGS : List String := ["h1", "h2", "h3", "h4", "h5", "h6"]

/-- `int(tag.name[1])` for a heading tag name. -/
def headingLevel (t : String) : Nat :=
  match t.data with
  | _ :: c :: _ => c.toNat - 48
  | _ => 0

/-- `extractor._extract_headings`: every `h1`–`h6` descendant, kept when its
cleaned text is longer than one character. -/
def extractHeadings (area : List (String × Node)) : List Heading :=
  (area.filter (fun p => HEADING_TAGS.contains p.2.tagName)).filterMap
    (fun p =>
      let text := cleanText (getTextN p.2)
      if 1 < text.length then
        some { level := headingLevel p.2.tagName, tag := p.2.tagName,
               text := text, id := p.2.attrGet "id" }
      else none)

/-- Worker for `_extract_paragraphs`: fold one candidate list threading the
`seen_texts` set; keep a candidate when its cleaned text is longer than
`minLen` and unseen. -/
def paragraphPass (minLen : Nat) :
    List Node → List String → List Paragraph → List String × List Paragraph
  | [], seen, acc => (seen, acc)
  | n :: ns, seen, acc =>
      let text := cleanText (getTextN n)
      if minLen < text.length && !seen.contains text then
        paragraphPass minLen ns (text :: seen)
          (acc ++ [{ text := text, word_count := wordCountOf text }])
      else paragraphPass minLen ns seen acc

/-- The block tags whose presence as a descendant disqualifies a `div`
from the paragraph pass. -/
def DIV_BLOCK_TAGS : List String :=
  ["p", "div", "ul", "ol", "table", "article", "section"]

/-- `extractor._extract_paragraphs`: `p` descendants with text longer than
10 characters, then `div` descendants with no block-level descendant and
text longer than 30 characters, de-duplicated by exact text against the
shared seen set.  (The `if text` guards are subsumed by the length
bounds.) -/
def extractParagraphs (area : List (String × Node)) : List Paragraph :=
  let ps := (area.filter (fun p => p.2.tagName == "p")).map (fun p => p.2)
  let (seen, acc) := paragraphPass 10 ps [] []
  let divs := ((area.filter (fun p => p.2.tagName == "div")).map (fun p => p.2)).filter
    (fun d => (d.findFirstDesc DIV_BLOCK_TAGS).isNone)
  (paragraphPass 30 divs seen acc).2

/-- `extractor._extract_lists`: `ul`/`ol` descendants whose parent is not a
`li`/`ul`/`ol`; items are the cleaned nonempty texts of direct `li`
children; lists with no items are dropped. -/
def extractLists (area : List (String × Node)) : List ListBlock :=
  (area.filter (fun p =>
      (p.2.tagName == "ul" || p.2.tagName == "ol") &&
      !(["li", "ul", "ol"].contains p.1))).filterMap
    (fun p =>
      let items := (p.2.directChildren "li").filterMap (fun li =>
        let t := cleanText (getTextN li)
        if t != "" then some t else none)
      if items.isEmpty then none
      else some { type := if p.2.tagName == "ol" then "ordered" else "unordered",
                  tag := p.2.tagName, items := items })

/-- The cell texts of one row:
`[clean_text(td.get_text()) for td in tr.find_all(['td', 'th'])]`. -/
def rowCells (tr : Node) : List String :=
  (tr.findAllDesc ["td", "th"]).map (fun td => cleanText (getTextN td))

/-- The `tr == table.find('tr')` test of `_extract_tables`: value equality
against the table's first `tr` descendant (`False` when the table has no
`tr`, as `tr == None` is in Python). -/
def isFirstTrOf (firstTr : Option Node) (tr : Node) : Bool :=
  match firstTr with
  | some f => nodeBeq tr f
  | none => false

/-- The header/row data `_extract_tables` computes for one `table` element:
headers from the `th` descendants of the table's first `thead` (if any);
rows from the `tr` descendants of the table's first `tbody`, or of the
table itself when there is no `tbody`; a row is its `td`/`th` descendants'
cleaned texts, dropped when empty or when headers are empty and the row is
(value-)equal to the table's first `tr`. -/
def tableData (table : Node) : List String × List (List String) :=
  let headers :=
    match table.findFirstDesc ["thead"] with
    | some thead => (thead.findAllDesc ["th"]).map (fun th => cleanText (getTextN th))
    | none => []
  let rowSource := (table.findFirstDesc ["tbody"]).getD table
  let firstTr := table.findFirstDesc ["tr"]
  let rows := (rowSource.findAllDesc ["tr"]).filterMap (fun tr =>
    let row := rowCells tr
    if !row.isEmpty && !(headers.isEmpty && isFirstTrOf firstTr tr) then
      some row
    else none)
  (headers, rows)

/-- `extractor._extract_tables`: every `table` descendant with nonempty
headers or rows. -/
def extractTables (area : List (String × Node)) : List TableBlock :=
  (area.filter (fun p => p.2.tagName == "table")).filterMap
    (fun p =>
      let (headers, rows) := tableData p.2
      if !headers.isEmpty || !rows.isEmpty then
        some { headers := headers, rows := rows }
      else none)

/-- `extractor._extract_blockquotes`: every `blockquote` descendant with
nonempty cleaned text; the citation is the first `cite` descendant's
cleaned text, else `''`. -/
def extractBlockquotes (area : List (String × Node)) : List Blockquote :=
  (area.filter (fun p => p.2.tagName == "blockquote")).filterMap
    (fun p =>
      let text := cleanText (getTextN p.2)
      if text != "" then
        some { text := text,
               citation :=
                 match p.2.findFirstDesc ["cite"] with
                 | some c => cleanText (getTextN c)
                 | none => "" }
      else none)

/-- `extractor._extract_emphasis`: the cleaned nonempty texts of
`strong`/`b` and of `em`/`i` descendants, each list de-duplicated
preserving order. -/
def extractEmphasis (area : List (String × Node)) : Emphasis :=
  { strong := dedupeStr (((area.filter (fun p =>
        p.2.tagName == "strong" || p.2.tagName == "b")).map
          (fun p => cleanText (getTextN p.2))).filter (fun t => t != "")),
    em := dedupeStr (((area.filter (fun p =>
        p.2.tagName == "em" || p.2.tagName == "i")).map
          (fun p => cleanText (getTextN p.2))).filter (fun t => t != "")) }

/-- The tag kinds `_extract_elements_in_order` collects. -/
def ORDER_TAGS : List String :=
  ["h1", "h2", "h3", "h4", "h5", "h6", "p", "ul", "ol", "blockquote", "table"]

/-- Parent tag kinds that make `_extract_elements_in_order` skip an
element. -/
def ORDER_SKIP_PARENTS : List String :=
  ["h1", "h2", "h3", "h4", "h5", "h6", "p", "blockquote"]

/-- `extractor._extract_elements_in_order`: the six top-level kinds in
document order, skipping elements whose parent is itself a heading, `p` or
`blockquote`, and elements whose cleaned text is empty or shorter than 3
characters; headings carry their level, lists their orderedness and the
cleaned texts of direct `li` children (unfiltered). -/
def extractElementsInOrder (area : List (String × Node)) : List OrderedElement :=
  (area.filter (fun p =>
      ORDER_TAGS.contains p.2.tagName && !(ORDER_SKIP_PARENTS.contains p.1))).filterMap
    (fun p =>
      let text := cleanText (getTextN p.2)
      if text == "" || text.length < 3 then none
      else
        let tag := p.2.tagName
        if HEADING_TAGS.contains tag then
          some { type := "heading", tag := tag, text := text,
                 level := some (headingLevel tag) }
        else if tag == "ul" || tag == "ol" then
          some { type := "list", tag := tag, text := text,
                 list_type := some (if tag == "ol" then "ordered" else "unordered"),
                 items := some ((p.2.directChildren "li").map
                   (fun li => cleanText (getTextN li))) }
        else
          some { type := tag, tag := tag, text := text })

/-- `extractor._extract_title`: the `title` element's cleaned text, else
the first `h1`'s, else `''`. -/
def extractTitle (doc : List Node) : String :=
  match docFind doc "title" with
  | some t => cleanText (getTextN t)
  | none =>
      match docFind doc "h1" with
      | some h => cleanText (getTextN h)
      | none => ""

/-- `extractor._extract_meta_description`: the `content` of
`<meta name="description">`, else of `<meta property="og:description">`,
else `''`. -/
def extractMetaDescription (doc : List Node) : String :=
  match ((docElems doc).map (fun p => p.2)).find? (fun n =>
      n.tagName == "meta" && n.attrGet "name" == "description") with
  | some meta => cleanText (meta.attrGet "content")
  | none =>
      match ((docElems doc).map (fun p => p.2)).find? (fun n =>
          n.tagName == "meta" && n.attrFind "property" == some "og:description") with
      | some og => cleanText (og.attrGet "content")
      | none => ""

/-- `extractor._empty_result`. -/
def emptyResult : ExtractResult :=
  { headings := [], paragraphs := [], lists := [], tables := [],
    blockquotes := [], emphasis := { strong := [], em := [] },
    full_text := "", elements_in_order := [],
    metadata := { title := "", meta_description := "", word_count := 0,
                  character_count := 0, sentence_count := 0 } }

/-- The search-area element list of `extract_content` (parent-aware
`find_all` domain): the main-content candidate's descendants, else the
body's descendants, else every element of the document. -/
def searchAreaElems (doc : List Node) : List (String × Node) :=
  match mainContentOf doc with
  | some n => elemsWithParentL n.tagName n.childNodes
  | none =>
      match findBody doc with
      | some b => elemsWithParentL b.tagName b.childNodes
      | none => docElems doc

/-- `extractor.extract_content(html)`.  `none` stands for falsy markup
(`if not html: return _empty_result()`); `some m` for nonempty markup whose
parse tree is `m.doc`.  Structured extraction runs on the
script/style/noscript-decomposed tree; the full text is recomputed from the
raw markup by `extract_full_text` (the source re-parses `html`), so it sees
the undecomposed tree. -/
def extract_content (input : Option Markup) : ExtractResult :=
  match input with
  | none => emptyResult
  | some m =>
      let cleanedDoc := stripScriptsL m.doc
      let area := searchAreaElems cleanedDoc
      let full_text := chosenFullText m
      { headings := extractHeadings area,
        paragraphs := extractParagraphs area,
        lists := extractLists area,
        tables := extractTables area,
        blockquotes := extractBlockquotes area,
        emphasis := extractEmphasis area,
        full_text := full_text,
        elements_in_order := extractElementsInOrder area,
        metadata := { title := extractTitle cleanedDoc,
                      meta_description := extractMetaDescription cleanedDoc,
                      word_count := wordCountOf full_text,
                      character_count := full_text.length,
                      sentence_count := sentCount full_text } }

/-! ## `helpers.strip_tracking_params` / `helpers.normalize_url`

The source parses the URL with `urllib.parse.urlparse`, rebuilds it with
`urlunparse`, and re-parses on the next call.  Both stdlib functions are
external; the model works on the parsed component structure directly,
treating the `urlunparse`/`urlparse` round trip between the two passes as
the identity on components.  That holds for every component `urlparse`
itself produces except one case: a path whose last segment contains `';'`
is re-split on the next parse into path and params (so the amended
idempotence theorem below excludes paths containing `';'`).  The model
also treats percent-encoding as the identity, exact at pair granularity on
`urlencode` output.  Finally, it models
modelling the `parse_qs`(`keep_blank_values=False`)/`urlencode`(`doseq`)
round trip at pair-list granularity: `parse_qs` drops blank values and
groups values under their key in first-occurrence order, `urlencode`
flattens the groups back (percent-encoding, exact on already-encoded
output, is the identity here). -/

/-- A parsed URL (`urllib.parse.ParseResult`): scheme, netloc, path,
params, query (as the pair list `parse_qsl` would yield), fragment. -/
structure Url where
  scheme : String
  netloc : String
  path : String
  params : String
  query : List (String × String)
  fragment : String
deriving DecidableEq, Repr

/-- `helpers.TRACKING_PARAMS`. -/
def TRACKING_PARAMS : List String :=
  ["utm_source", "utm_medium", "utm_campaign", "utm_term", "utm_content",
   "gclid", "gclsrc", "dclid", "gbraid", "wbraid",
   "fbclid", "fb_action_ids", "fb_action_types", "fb_source", "fb_ref",
   "msclkid",
   "twclid",
   "_hsenc", "_hsmi", "hsa_acc", "hsa_cam", "hsa_grp", "hsa_ad",
   "hsa_src", "hsa_tgt", "hsa_kw", "hsa_mt", "hsa_net", "hsa_ver",
   "mc_cid", "mc_eid",
   "ref", "referrer", "source", "_ga", "_gl",
   "affiliate", "partner", "campaign_id", "ad_id",
   "sessionid", "session_id", "sid", "PHPSESSID",
   "trk", "clickid", "zanpid", "irclickid"]

/-- Fuel-driven worker for `groupQ` (structural recursion so that concrete
evaluation reduces; fuel at least the list length never runs out). -/
def groupQGo : Nat → List (String × String) → List (String × List String)
  | _, [] => []
  | 0, _ :: _ => []
  | fuel + 1, (k, v) :: rest =>
      (k, v :: (rest.filter (fun p => p.1 == k)).map (fun p => p.2)) ::
        groupQGo fuel (rest.filter (fun p => !(p.1 == k)))

/-- The grouping performed by `parse_qs`: values are collected under their
key, keys appear in first-occurrence order. -/
def groupQ (l : List (String × String)) : List (String × List String) :=
  groupQGo l.length l

/-- The flattening performed by `urlencode(..., doseq=True)` on a
`parse_qs` dict. -/
def ungroupQ : List (String × List String) → List (String × String)
  | [] => []
  | (k, vs) :: g => vs.map (fun v => (k, v)) ++ ungroupQ g

/-- `keep_blank_values=False` of `parse_qs`: a pair survives when its
value is nonblank. -/
def valueNonblank (p : String × String) : Bool := p.2 != ""

/-- The tracking filter of `strip_tracking_params`:
`k.lower() not in tracking_lower`. -/
def isTrackOkKey (k : String) : Bool :=
  !((TRACKING_PARAMS.map pyLower).contains (pyLower k))

/-- `helpers.strip_tracking_params`: parse the query dropping blank values
(`keep_blank_values=False`), drop keys whose lowercase form is a tracking
parameter, re-encode, and drop the fragment.  Scheme, netloc, path and
params pass through. -/
def stripTrackingParams (u : Url) : Url :=
  let params := groupQ (u.query.filter valueNonblank)
  let cleanParams := params.filter (fun p => isTrackOkKey p.1)
  { u with query := ungroupQ cleanParams, fragment := "" }

/-- The full query transformation one `normalize_url` pass applies (the
query part of `stripTrackingParams`, as a function of the pair list). -/
def queryNorm (q : List (String × String)) : List (String × String) :=
  ungroupQ ((groupQ (q.filter valueNonblank)).filter (fun p => isTrackOkKey p.1))

/-- The netloc `www.` strip of `normalize_url`. -/
def wwwStrip (n : String) : String :=
  if startsWithStr "www." n then ⟨n.data.drop 4⟩ else n

/-- The default-port removal of `normalize_url`: `':80' in netloc` /
`netloc.replace(':80', '')` (a plain substring replace), then the same for
`':443'` on the possibly-updated netloc, each guarded by the scheme. -/
def portStrip (scheme n : String) : String :=
  let n1 := if containsSubStr ":80" n && scheme == "http"
            then replaceStr ":80" "" n else n
  if containsSubStr ":443" n1 && scheme == "https"
  then replaceStr ":443" "" n1 else n1

/-- Python `path.rstrip('/')`. -/
def rstripSlash (p : String) : String :=
  ⟨(p.data.reverse.dropWhile (fun c => c == '/')).reverse⟩

/-- The path normalization of `normalize_url`: strip trailing slashes
unless the path is exactly `'/'`; an empty path becomes `'/'`. -/
def pathNorm (p : String) : String :=
  let p1 := if p != "/" && p.data.getLast? == some '/' then rstripSlash p else p
  if p1 == "" then "/" else p1

/-- `helpers.normalize_url` on a nonempty URL (`if not url: return ''` is
the empty-string fast path; a `Url` value stands for a nonempty URL):
strip tracking parameters, lowercase scheme and netloc, remove a leading
`www.`, remove default ports, normalize the path, drop params and
fragment. -/
def normalizeUrl (u : Url) : Url :=
  let u1 := stripTrackingParams u
  let scheme := pyLower u1.scheme
  let netloc := portStrip scheme (wwwStrip (pyLower u1.netloc))
  { scheme := scheme, netloc := netloc, path := pathNorm u1.path,
    params := "", query := u1.query, fragment := "" }


/-! ## `renderer.py`: the progressive-scroll loop

`_progressive_scroll` measures the page height (`_get_page_height`, whose
internal `try` turns any failure into `0`), then loops while
`scroll_count < max_scrolls and stable_count < stability_checks`,
scrolling one viewport, re-measuring, incrementing the stability counter on
an unchanged height and resetting it (and the stored height) on growth.
The page's behavior is abstracted by the measurement sequence
`heights : Nat → Nat`, where `heights 0` is the initial measurement and
`heights i` (`i ≥ 1`) is the measurement taken after the `i`-th scroll. -/

/-- The loop of `_progressive_scroll`, returning the number of iterations
executed.  `fuel` is `max_scrolls - scroll_count` (so fuel exhaustion is
exactly the `scroll_count < max_scrolls` exit), `sc`/`st`/`lh` are
`scroll_count`/`stable_count`/`last_height`. -/
def scrollSteps (heights : Nat → Nat) (stability : Nat) :
    Nat → Nat → Nat → Nat → Nat
  | 0, sc, _, _ => sc
  | fuel + 1, sc, st, lh =>
      if stability ≤ st then sc
      else
        let nh := heights (sc + 1)
        if nh = lh then scrollSteps heights stability fuel (sc + 1) (st + 1) lh
        else scrollSteps heights stability fuel (sc + 1) 0 nh

/-- Number of iterations `_progressive_scroll(page, max_scrolls,
stability_checks)` executes on a page with measurement sequence
`heights`. -/
def progressiveScrollCount (heights : Nat → Nat)
    (maxScrolls stability : Nat) : Nat :=
  scrollSteps heights stability maxScrolls 0 0 (heights 0)

/-! ## `renderer.py`: the control flow of `get_rendered_html_async`

The Playwright calls are external I/O; each fallible operation's outcome is
a component of an environment value, and the model reproduces the source's
`try`/`except`/`finally` structure over those outcomes.  The operations
whose failures the source swallows locally (`page.goto` — logged and
ignored; the two `wait_for_load_state` calls; `_wait_for_selectors`,
`_wait_for_hydration`, `_click_cookie_buttons`, `_wait_for_content`, and
the final `_get_page_word_count`, each of which catches internally) are
`soft`.  The unwrapped operations — `browser.new_context`,
`context.new_page`, the `page.evaluate` scroll calls inside
`_progressive_scroll`, and `page.content()` — propagate to the outer
`except`/`raise`.  `page.close()`/`context.close()` in the `finally` block
are modelled as non-failing. -/

/-- Outcomes of the external operations of one `get_rendered_html_async`
call.  `scrollEval` abstracts the unwrapped `page.evaluate` calls of
`_progressive_scroll`; `content` is `page.content()` returning the
serialized markup. -/
structure RenderEnv where
  getBrowser : Except String Unit
  newContext : Except String Unit
  newPage : Except String Unit
  goto : Except String Unit
  waitLoad1 : Except String Unit
  selectorProbe : Except String Unit
  hydration : Except String Unit
  consentClick : Except String Unit
  scrollEval : Except String Unit
  waitContent : Except String Unit
  waitLoad2 : Except String Unit
  content : Except String String
  finalWordCount : Nat

/-- Result of one modelled render call: the value returned or exception
propagated, which per-call resources were created, and which were closed
by the `finally` block. -/
structure RenderResult where
  result : Except String String
  contextCreated : Bool
  contextClosed : Bool
  pageCreated : Bool
  pageClosed : Bool

/-- Whether an `Except` outcome is a success. -/
def exceptIsOk {ε α : Type} : Except ε α → Bool
  | .ok _ => true
  | .error _ => false

/-- A locally-caught (soft) phase: `try: ... except: pass`-equivalent —
the outcome is observed and discarded, the pipeline continues. -/
def softPhase (r : Except String Unit) : Unit :=
  match r with
  | .ok _ => ()
  | .error _ => ()

/-- `renderer.get_rendered_html_async`: browser acquisition precedes the
`try` (its failure propagates with nothing created); context and page
creation failures hit the outer `except`/`raise` with the `finally`
closing whatever exists; `goto`, the load-state waits, the selector probe,
hydration wait, consent click, content wait and final word count are soft;
a scroll-evaluate or content-capture failure propagates after the
`finally` closes both resources; otherwise the serialized markup is
returned (with the final word count only logged, even below 50). -/
def renderRun (env : RenderEnv) : RenderResult :=
  match env.getBrowser with
  | .error e =>
      { result := .error e, contextCreated := false, contextClosed := false,
        pageCreated := false, pageClosed := false }
  | .ok _ =>
      match env.newContext with
      | .error e =>
          { result := .error e, contextCreated := false, contextClosed := false,
            pageCreated := false, pageClosed := false }
      | .ok _ =>
          match env.newPage with
          | .error e =>
              { result := .error e, contextCreated := true, contextClosed := true,
                pageCreated := false, pageClosed := false }
          | .ok _ =>
              let _ := softPhase env.goto
              let _ := softPhase env.waitLoad1
              let _ := softPhase env.selectorProbe
              let _ := softPhase env.hydration
              let _ := softPhase env.consentClick
              match env.scrollEval with
              | .error e =>
                  { result := .error e, contextCreated := true,
                    contextClosed := true, pageCreated := true, pageClosed := true }
              | .ok _ =>
                  let _ := softPhase env.waitContent
                  let _ := softPhase env.waitLoad2
                  match env.content with
                  | .error e =>
                      { result := .error e, contextCreated := true,
                        contextClosed := true, pageCreated := true,
                        pageClosed := true }
                  | .ok html =>
                      let _ := env.finalWordCount
                      { result := .ok html, contextCreated := true,
                        contextClosed := true, pageCreated := true,
                        pageClosed := true }

/-! ## Claim statements, spec-side definitions, and concrete documents

The `CnClaim` propositions state the claims verbatim; the `spec*`
definitions follow the spec's words (for comparison against the
source-derived definitions); the small documents and environments are the
inputs the theorems below evaluate the model at. -/

/-- The parse tree `BeautifulSoup('<html></html>', 'lxml')` yields: an
`html` element (with or without the empty `body` lxml may insert — both
shapes are covered below). -/
def emptyHtmlBare : Markup := { doc := [Node.elem "html" [] []] }

/-- The `<html></html>` parse with an inserted empty body. -/
def emptyHtmlWithBody : Markup :=
  { doc := [Node.elem "html" [] [Node.elem "body" [] []]] }

/-- `n` repetitions of the word `w`, space-separated. -/
def repWords (w : String) (n : Nat) : String :=
  String.intercalate " " (List.replicate n w)

/-- C4 as claimed: for *every* markup the walk runs twice and the
noise-included result becomes the full text exactly when its word count
exceeds 1.5× the noise-excluded result's
(`2·count(with noise) > 3·count(without noise)` on naturals). -/
def C4Claim : Prop :=
  ∀ m : Markup,
    chosenFullText m =
      (if 3 * wordCountOf (extractFullText m false) <
          2 * wordCountOf (extractFullText m true)
       then extractFullText m true
       else extractFullText m false)

/-- Counterexample document for C4: the body's visible text is 3 words; a
hidden wrapper holds an `article` with 100 words of content plus a
noise-classed (`social`) sibling holding 60 more.  The noise-excluded
extraction already finds 100 words (the article walk), so the source never
reruns the walk, even though the noise-included count (160) exceeds
1.5 × 100. -/
def d4 : Markup :=
  { doc := [Node.elem "html" [] [Node.elem "body" [] [
      Node.text " v v v ",
      Node.elem "div" [("style", "display:none")] [
        Node.elem "article" [] [
          Node.text (repWords "a" 100),
          Node.elem "div" [("class", "social")] [Node.text (repWords "b" 60)]]]]]] }

/-- The spec's notion of a candidate's "extracted text length": the length
of the normalized text the walk extracts from it. -/
def specExtractedLen (n : Node) : Nat :=
  (normalizeWhitespace (String.intercalate " " (walkTextNodes true n.childNodes))).length

/-- Main-content selection as the spec words it: the first candidate, in
selector priority order, that exists *and* whose extracted text length
exceeds 100 characters. -/
def specMainContentThreshold (doc : List Node) : Option Node :=
  CONTENT_SELECTORS.findSome? (fun sel =>
    match selectOne sel doc with
    | some n => if 100 < specExtractedLen n then some n else none
    | none => none)

/-- C5 as claimed: for every document the extractor's search area is the
one the 100-character-threshold selection yields (with the same body /
whole-document fallback). -/
def C5Claim : Prop :=
  ∀ doc : List Node,
    areaChildrenOf (mainContentOf doc) doc =
      areaChildrenOf (specMainContentThreshold doc) doc

/-- Counterexample document for C5: the `article` (first selector) holds
only 11 characters of text, while a later `.entry-content` candidate holds
119 characters. -/
def d5doc : List Node :=
  [Node.elem "html" [] [Node.elem "body" [] [
    Node.elem "article" [] [Node.text "short text!"],
    Node.elem "div" [("class", "entry-content")] [Node.text (repWords "c" 60)]]]]

/-- The document holds a `nav` element whose text is `t`. -/
def docHasNavWithText (m : Markup) (t : String) : Bool :=
  ((docElems m.doc).map (fun p => p.2)).any
    (fun n => n.tagName == "nav" && getTextN n == t)

/-- The document holds an `article` element whose whitespace tokens are
exactly `toks`. -/
def docHasArticleWithTokens (m : Markup) (toks : List String) : Bool :=
  ((docElems m.doc).map (fun p => p.2)).any
    (fun n => n.tagName == "article" && splitWs (getTextN n) == toks)

/-- C3 as claimed: in every markup where a `nav` holds the text
"Home About Contact" and an `article` holds a 300-word passage, the full
text contains the whole passage and does not contain
"Home About Contact" (containment at whitespace-token granularity). -/
def C3Claim : Prop :=
  ∀ (m : Markup) (passage : List String),
    passage.length = 300 →
    docHasNavWithText m "Home About Contact" = true →
    docHasArticleWithTokens m passage = true →
    tokListContains passage (splitWs (chosenFullText m)) = true ∧
    tokListContains ["Home", "About", "Contact"] (splitWs (chosenFullText m)) = false

/-- Counterexample document for C3: a `nav` with "Home About Contact" and
an `article` with a 300-word passage, siblings under the body. -/
def d3 : Markup :=
  { doc := [Node.elem "html" [] [Node.elem "body" [] [
      Node.elem "nav" [] [Node.text "Home About Contact"],
      Node.elem "article" [] [Node.text (repWords "a" 300)]]]] }

/-- Table extraction as the claim words it: with a `thead`, headers are its
`th` texts; *without* a `thead`, the first row's cells become the headers
and that row is excluded from the data rows; rows come from the `tbody` or
the table itself (nonempty rows, as in the source). -/
def specTableClaim (t : Node) : List String × List (List String) :=
  let headers :=
    match t.findFirstDesc ["thead"] with
    | some thead => (thead.findAllDesc ["th"]).map (fun th => cleanText (getTextN th))
    | none =>
        match t.findFirstDesc ["tr"] with
        | some tr => rowCells tr
        | none => []
  let src := (t.findFirstDesc ["tbody"]).getD t
  let keptTrs :=
    match t.findFirstDesc ["thead"] with
    | some _ => src.findAllDesc ["tr"]
    | none =>
        (src.findAllDesc ["tr"]).filter (fun tr =>
          !(isFirstTrOf (t.findFirstDesc ["tr"]) tr))
  (headers, (keptTrs.map rowCells).filter (fun r => !r.isEmpty))

/-- C9 as claimed, for every table element. -/
def C9Claim : Prop :=
  ∀ (attrs : List (String × String)) (cs : List Node),
    tableData (Node.elem "table" attrs cs) = specTableClaim (Node.elem "table" attrs cs)

/-- The children of a table without `thead`: two distinct rows. -/
def t9bChildren : List Node :=
  [Node.elem "tr" [] [Node.elem "td" [] [Node.text "A"],
                      Node.elem "td" [] [Node.text "B"]],
   Node.elem "tr" [] [Node.elem "td" [] [Node.text "C"],
                      Node.elem "td" [] [Node.text "D"]]]

/-- Table extraction as the code implements it: headers come *only* from a
`thead`'s `th` cells (empty otherwise); data rows come from the `tbody`,
or the table itself when no `tbody` exists, dropping empty rows and
excluding rows value-equal to the table's first `tr` exactly when the
headers are empty. -/
def specTableAmended (t : Node) : List String × List (List String) :=
  let headers :=
    match t.findFirstDesc ["thead"] with
    | some thead => (thead.findAllDesc ["th"]).map (fun th => cleanText (getTextN th))
    | none => []
  let src := (t.findFirstDesc ["tbody"]).getD t
  let keptTrs :=
    if headers.isEmpty then
      (src.findAllDesc ["tr"]).filter (fun tr =>
        !(isFirstTrOf (t.findFirstDesc ["tr"]) tr))
    else src.findAllDesc ["tr"]
  (headers, (keptTrs.map rowCells).filter (fun r => !r.isEmpty))

/-- The children of the claim's concrete table: a `thead` of 3 `th` and a
`tbody` of 2 rows of 3 cells. -/
def t9aChildren : List Node :=
  [Node.elem "thead" [] [Node.elem "tr" [] [
      Node.elem "th" [] [Node.text "A"],
      Node.elem "th" [] [Node.text "B"],
      Node.elem "th" [] [Node.text "C"]]],
   Node.elem "tbody" [] [
     Node.elem "tr" [] [Node.elem "td" [] [Node.text "1"],
                        Node.elem "td" [] [Node.text "2"],
                        Node.elem "td" [] [Node.text "3"]],
     Node.elem "tr" [] [Node.elem "td" [] [Node.text "4"],
                        Node.elem "td" [] [Node.text "5"],
                        Node.elem "td" [] [Node.text "6"]]]]

/-- C6 as claimed: (a) a navigation failure is fatal — the call surfaces an
error; (b) when navigation (and resource creation and content capture)
succeed, failures of the later phases — selector probe, hydration wait,
consent click, scroll, word-count wait — never surface and the call still
returns markup. -/
def C6Claim : Prop :=
  (∀ (env : RenderEnv) (e : String),
     env.goto = Except.error e → exceptIsOk (renderRun env).result = false) ∧
  (∀ env : RenderEnv,
     exceptIsOk env.getBrowser = true → exceptIsOk env.newContext = true →
     exceptIsOk env.newPage = true → exceptIsOk env.goto = true →
     exceptIsOk env.content = true →
     exceptIsOk (renderRun env).result = true)

/-- An environment in which navigation itself raises (a DNS failure) and
every other operation succeeds; the page stays `about:blank` and content
capture returns its markup. -/
def envGotoFail : RenderEnv :=
  { getBrowser := .ok (), newContext := .ok (), newPage := .ok (),
    goto := .error "net::ERR_NAME_NOT_RESOLVED",
    waitLoad1 := .ok (), selectorProbe := .ok (), hydration := .ok (),
    consentClick := .ok (), scrollEval := .ok (), waitContent := .ok (),
    waitLoad2 := .ok (),
    content := .ok "<html><head></head><body></body></html>",
    finalWordCount := 0 }

/-- C10 as claimed: `normalize_url` is idempotent on every URL. -/
def C10Claim : Prop :=
  ∀ u : Url, normalizeUrl (normalizeUrl u) = normalizeUrl u

/-- The stacked-`www.` URL `http://www.www.example.com/`. -/
def u10 : Url :=
  { scheme := "http", netloc := "www.www.example.com", path := "/",
    params := "", query := [], fragment := "" }

/-! # Theorems -/

/-! ## C1 — extraction is total; empty / unparsable markup -/

/-- C1: extraction is total — `extract_content` is a total function of its
input by construction (every Python code path either returns a dictionary
or is the `_empty_result()` fast path; no exception escapes) — and on empty
markup (`extract("")`, the `none` case) as well as on the unparsable
document `<html></html>` (either parse shape) the result is exactly
`_empty_result()`: every sequence field is empty and
`metadata.word_count = 0`. -/
theorem c1_extract_total_empty :
    extract_content none = emptyResult ∧
    extract_content (some emptyHtmlBare) = emptyResult ∧
    extract_content (some emptyHtmlWithBody) = emptyResult := by
  decide

/-! ## C2 — `wordCount == len(fullText.split())` -/

/-- C2: for every input, the `word_count` stored in the metadata of the
extracted document equals the number of whitespace-delimited tokens of its
`full_text` (`word_count = len(full_text.split())` in the source, including
the `_empty_result` branch where both sides are zero). -/
theorem c2_word_count_invariant (input : Option Markup) :
    (extract_content input).metadata.word_count =
      wordCountOf (extract_content input).full_text := by
  cases input with
  | none => rfl
  | some m => simp only [extract_content]

/-! ## C7 — per-call browsing context and page are closed on every exit -/

/-- C7: whatever the outcomes of the external operations, the per-call page
and browsing context are closed exactly when they were created: the
`finally` block runs on success and on every propagated exception, and no
exit path leaves a created page or context open. -/
theorem c7_session_cleanup (env : RenderEnv) :
    (renderRun env).pageClosed = (renderRun env).pageCreated ∧
    (renderRun env).contextClosed = (renderRun env).contextCreated := by
  rcases env with ⟨gb, nc, np, g, w1, sp, hy, cc, se, wc, w2, ct, fw⟩
  cases gb <;> cases nc <;> cases np <;> cases se <;> cases ct <;>
    exact ⟨rfl, rfl⟩

/-! ## C8 — termination bounds of the progressive-scroll loop -/

/-- The loop executes at most `fuel` further iterations: the
`scroll_count < max_scrolls` guard. -/
theorem scrollSteps_le_fuel (heights : Nat → Nat) (stability : Nat) :
    ∀ (fuel sc stc lh : Nat),
      scrollSteps heights stability fuel sc stc lh ≤ sc + fuel := by
  intro fuel
  induction fuel with
  | zero => intro sc stc lh; simp [scrollSteps]
  | succ n ih =>
      intro sc stc lh
      simp only [scrollSteps]
      by_cases h1 : stability ≤ stc
      · simp only [if_pos h1]; omega
      · simp only [if_neg h1]
        by_cases h2 : heights (sc + 1) = lh
        · simp only [if_pos h2]
          have := ih (sc + 1) (stc + 1) lh
          omega
        · simp only [if_neg h2]
          have := ih (sc + 1) 0 (heights (sc + 1))
          omega

/-- Once the scroll counter has passed the stabilization point `N` and the
stored height is the stable height, each further iteration increments the
stability counter, so at most `stability - stc` iterations remain. -/
theorem scrollSteps_stable (heights : Nat → Nat) (stability N : Nat)
    (hstab : ∀ i, N ≤ i → heights i = heights N) :
    ∀ (fuel sc stc : Nat), N ≤ sc →
      scrollSteps heights stability fuel sc stc (heights sc) ≤
        sc + (stability - stc) := by
  intro fuel
  induction fuel with
  | zero => intro sc stc hsc; simp [scrollSteps]
  | succ n ih =>
      intro sc stc hsc
      simp only [scrollSteps]
      by_cases h1 : stability ≤ stc
      · simp only [if_pos h1]; omega
      · simp only [if_neg h1]
        have heq : heights (sc + 1) = heights sc := by
          rw [hstab (sc + 1) (by omega), hstab sc hsc]
        simp only [heq, if_pos rfl]
        have h2 : heights sc = heights (sc + 1) := heq.symm
        calc scrollSteps heights stability n (sc + 1) (stc + 1) (heights sc)
            = scrollSteps heights stability n (sc + 1) (stc + 1)
                (heights (sc + 1)) := by rw [h2]
          _ ≤ (sc + 1) + (stability - (stc + 1)) := ih (sc + 1) (stc + 1) (by omega)
          _ ≤ sc + (stability - stc) := by omega

/-- Up to the stabilization point the stored height always equals the most
recent measurement, so the loop reaches the stable regime within `N`
iterations and finishes within `stability` more. -/
theorem scrollSteps_bound (heights : Nat → Nat) (stability N : Nat)
    (hstab : ∀ i, N ≤ i → heights i = heights N) :
    ∀ (fuel sc stc : Nat), sc ≤ N →
      scrollSteps heights stability fuel sc stc (heights sc) ≤ N + stability := by
  intro fuel
  induction fuel with
  | zero => intro sc stc hsc; simp [scrollSteps]; omega
  | succ n ih =>
      intro sc stc hsc
      rcases Nat.eq_or_lt_of_le hsc with heq | hlt
      · subst heq
        have := scrollSteps_stable heights stability sc hstab (n + 1) sc stc
          (Nat.le_refl sc)
        omega
      · simp only [scrollSteps]
        by_cases h1 : stability ≤ stc
        · simp only [if_pos h1]; omega
        · simp only [if_neg h1]
          by_cases h2 : heights (sc + 1) = heights sc
          · simp only [if_pos h2]
            have := ih (sc + 1) (stc + 1) (by omega)
            rw [h2] at this
            exact this
          · simp only [if_neg h2]
            exact ih (sc + 1) 0 (by omega)

/-- C8: for every page — including one whose measured height grows
forever — the progressive-scroll loop never executes more than
`max_scrolls` iterations; and whenever the measured height stops growing
after `N` scrolls (`heights i = heights N` for all `i ≥ N`), it executes
at most `N + stability_checks` iterations. -/
theorem c8_scroll_termination (heights : Nat → Nat)
    (maxScrolls stability : Nat) :
    progressiveScrollCount heights maxScrolls stability ≤ maxScrolls ∧
    ∀ N, (∀ i, N ≤ i → heights i = heights N) →
      progressiveScrollCount heights maxScrolls stability ≤ N + stability := by
  constructor
  · have := scrollSteps_le_fuel heights stability maxScrolls 0 0 (heights 0)
    simpa [progressiveScrollCount] using this
  · intro N hstab
    exact scrollSteps_bound heights stability N hstab maxScrolls 0 0 (Nat.zero_le N)

/-- Witness for C8, at the source's call-site parameters
`max_scrolls = 15`, `stability_checks = 3`: a page whose height grows
forever (`heights i = i`) runs exactly 15 iterations, within the
unconditional bound; a page whose height grows by one viewport per scroll
for 5 scrolls and then stabilizes runs 8 iterations, within both
bounds. -/
theorem c8_scroll_termination_witness :
    progressiveScrollCount (fun i => i) 15 3 = 15 ∧
    progressiveScrollCount (fun i => i) 15 3 ≤ 15 ∧
    (∀ i, 5 ≤ i → min i 5 = min 5 5) ∧
    progressiveScrollCount (fun i => min i 5) 15 3 = 8 ∧
    progressiveScrollCount (fun i => min i 5) 15 3 ≤ 5 + 3 ∧
    progressiveScrollCount (fun i => min i 5) 15 3 ≤ 15 := by
  have hstab : ∀ i, 5 ≤ i → (fun i => min i 5) i = (fun i => min i 5) 5 := by
    intro i hi
    simp only [Nat.min_def]
    split <;> split <;> omega
  refine ⟨by decide, ?_, hstab, by decide, ?_, ?_⟩
  · exact (c8_scroll_termination (fun i => i) 15 3).1
  · exact (c8_scroll_termination (fun i => min i 5) 15 3).2 5 hstab
  · exact (c8_scroll_termination (fun i => min i 5) 15 3).1

/-! ## C4 — the 1.5× recovery heuristic -/

/-- C4 is false on the code: at `d4` the claim's rule picks the 160-word
noise-included text (2·160 > 3·100), but `extract_content` only reruns the
walk when the first result has fewer than 100 words, so it keeps the
100-word noise-excluded text. -/
theorem c4_counterexample : ¬ C4Claim :=
  fun h => absurd (h d4) (by decide)

/-- C4 amended: the noise-included walk runs only when the noise-excluded
full text has fewer than 100 whitespace tokens, and then the noise-included
result becomes the full text exactly when its word count exceeds 1.5× the
noise-excluded count. -/
theorem c4_recovery_heuristic_amended (m : Markup) :
    chosenFullText m =
      (if wordCountOf (extractFullText m false) < 100 ∧
          3 * wordCountOf (extractFullText m false) <
            2 * wordCountOf (extractFullText m true)
       then extractFullText m true
       else extractFullText m false) := by
  unfold chosenFullText
  by_cases h1 : wordCountOf (extractFullText m false) < 100
  · by_cases h2 : 3 * wordCountOf (extractFullText m false) <
        2 * wordCountOf (extractFullText m true)
    · simp [h1, h2]
    · simp [h1, h2]
  · simp [h1]

/-! ## C5 — main-content localization -/

/-- C5 is false on the code: the selector loop takes the first candidate
that exists with no text-length test (`if candidate: break`), so at
`d5doc` the code localizes to the 11-character `article`, not to the
`.entry-content` div the claimed 100-character threshold would select. -/
theorem c5_counterexample : ¬ C5Claim := by
  intro h
  have h2 := congrArg
    (fun ns => String.intercalate " " (walkTextNodes true ns)) (h d5doc)
  simp only at h2
  exact absurd h2 (by decide)

/-- `findSome?` is the head of `filterMap`. -/
theorem findSome?_eq_head?_filterMap {α β : Type} (f : α → Option β) :
    ∀ l : List α, l.findSome? f = (l.filterMap f).head? := by
  intro l
  induction l with
  | nil => rfl
  | cons a as ih =>
      simp only [List.findSome?_cons, List.filterMap_cons]
      cases f a with
      | none => exact ih
      | some b => rfl

/-- C5 amended: the extractor evaluates the priority-ordered selector list
and localizes to the *first candidate that exists at all* — no text-length
threshold is applied — falling back to the document body and then to the
whole document. -/
theorem c5_localization_amended (doc : List Node) :
    areaChildrenOf (mainContentOf doc) doc =
      (match (CONTENT_SELECTORS.filterMap (fun sel => selectOne sel doc)).head? with
       | some n => n.childNodes
       | none =>
           match findBody doc with
           | some b => b.childNodes
           | none => doc) := by
  unfold areaChildrenOf mainContentOf
  rw [findSome?_eq_head?_filterMap]

/-! ## C3 — noise exclusion -/

/-- C3 is false on the code: at `d3` the noise-excluded article walk yields
300 words, but `extract_full_text` always also walks the full body with
noise included (strategy 5) and returns the longest candidate — 303 words
including the nav text — so the chosen full text *does* contain
"Home About Contact". -/
theorem c3_counterexample : ¬ C3Claim := by
  intro h
  have h3 := h d3 (List.replicate 300 "a") (by simp) (by decide) (by decide)
  exact absurd h3.2 (by decide)

/-- C3 amended: the full text contains the entire 300-word passage, and the
noise-excluded DOM walk on its own does exclude the nav text — but the
extractor returns the longest of its strategies, among them an
always-present noise-included full-body walk, so the chosen full text also
contains "Home About Contact". -/
theorem c3_noise_exclusion_amended :
    tokListContains (List.replicate 300 "a") (splitWs (chosenFullText d3)) = true ∧
    tokListContains ["Home", "About", "Contact"] (splitWs (chosenFullText d3)) = true ∧
    tokListContains ["Home", "About", "Contact"]
      (splitWs (domWalkText d3.doc false)) = false := by
  exact ⟨by decide, by decide, by decide⟩

/-! ## C9 — table extraction -/

/-- C9 is false on the code: for a `thead`-less table the source drops the
first row from the data rows but never promotes its cells to `headers` —
`headers` is only ever assigned from a `thead` — so at `t9bChildren` the
code yields `headers = []` where the claim demands `["A", "B"]`. -/
theorem c9_counterexample : ¬ C9Claim := by
  intro h
  have h2 := congrArg Prod.fst (h [] t9bChildren)
  exact absurd h2 (by decide)

/-- A `filterMap` keeping the image of elements satisfying a test is the
map over the filtered list. -/
theorem filterMap_if_eq_map_filter {α β : Type} (f : α → β) (p : α → Bool) :
    ∀ l : List α,
      l.filterMap (fun a => if p a then some (f a) else none) = (l.filter p).map f := by
  intro l
  induction l with
  | nil => rfl
  | cons a as ih =>
      rw [List.filterMap_cons, List.filter_cons]
      cases hp : p a with
      | true => rw [ih]; rfl
      | false => rw [ih]; rfl

/-- The row pipeline of `tableData` equals the amended filter/map/filter
pipeline, for any headers list `H`, first-row candidate `F` and `tr`
list. -/
theorem tableRows_eq (H : List String) (F : Option Node) (trs : List Node) :
    trs.filterMap (fun tr =>
      if !(rowCells tr).isEmpty && !(H.isEmpty && isFirstTrOf F tr)
      then some (rowCells tr) else none)
    = ((if H.isEmpty then
          trs.filter (fun tr => !(isFirstTrOf F tr))
        else trs).map rowCells).filter (fun r => !r.isEmpty) := by
  rw [filterMap_if_eq_map_filter rowCells]
  cases hH : H.isEmpty with
  | true =>
      simp only [hH, Bool.true_and, if_true]
      rw [List.filter_map, List.filter_filter]
      apply congrArg (List.map rowCells)
      apply List.filter_congr
      intro tr _
      simp [Function.comp, Bool.and_comm]
  | false =>
      simp only [hH, Bool.false_and, Bool.not_false, Bool.and_true, if_false]
      rw [List.filter_map]
      apply congrArg (List.map rowCells)
      apply List.filter_congr
      intro tr _
      simp [Function.comp]

/-- C9 amended: for every table, headers come only from a `thead` (a
`thead`-less table keeps empty headers, its first row excluded from the
data rows but never promoted), with rows from the `tbody` or the table;
in particular the claim's concrete table (a `thead` of 3 `th`, a `tbody`
of 2 rows of 3 cells) yields 3 headers and 2 rows of 3 cells, and the
`thead`-less table keeps `headers = []` with only its second row as
data. -/
theorem c9_table_extraction_amended :
    (∀ (attrs : List (String × String)) (cs : List Node),
      tableData (Node.elem "table" attrs cs) =
        specTableAmended (Node.elem "table" attrs cs)) ∧
    tableData (Node.elem "table" [] t9aChildren) =
      (["A", "B", "C"], [["1", "2", "3"], ["4", "5", "6"]]) ∧
    tableData (Node.elem "table" [] t9bChildren) = ([], [["C", "D"]]) := by
  refine ⟨?_, by decide, by decide⟩
  intro attrs cs
  unfold tableData specTableAmended
  dsimp only
  rw [tableRows_eq]

/-! ## C6 — fatal versus soft failures in rendering -/

/-- C6 is false on the code: `page.goto` is wrapped in its own
`try`/`except` that only logs a warning, so a navigation failure is *not*
fatal — at `envGotoFail` the call completes and returns the blank page's
markup instead of surfacing a render error. -/
theorem c6_counterexample : ¬ C6Claim := by
  intro h
  have h1 := h.1 envGotoFail "net::ERR_NAME_NOT_RESOLVED" rfl
  exact absurd h1 (by decide)

/-- C6 amended: a navigation exception is caught and logged and the call
proceeds; the call surfaces an error exactly when browser acquisition,
context creation, page creation, a scroll evaluation, or content capture
fails — the selector probe, hydration wait, consent click, word-count wait
and network-idle waits never surface.  In particular, with navigation
failing and everything else healthy, the call returns the captured
markup. -/
theorem c6_error_propagation_amended :
    (∀ env : RenderEnv,
      exceptIsOk (renderRun env).result =
        (exceptIsOk env.getBrowser && exceptIsOk env.newContext &&
         exceptIsOk env.newPage && exceptIsOk env.scrollEval &&
         exceptIsOk env.content)) ∧
    (renderRun envGotoFail).result =
      Except.ok "<html><head></head><body></body></html>" := by
  constructor
  · intro env
    rcases env with ⟨gb, nc, np, g, w1, sp, hy, cc, se, wc, w2, ct, fw⟩
    cases gb <;> cases nc <;> cases np <;> cases se <;> cases ct <;> rfl
  · rfl

/-! ## C10 — idempotence of URL normalization

Support lemmas: lowercasing, colon-freeness, the `www.` prefix, the path
normalization, and the `parse_qs`/`urlencode` grouping round trip. -/

/-- `lowerChar` maps every character either to itself or to a lowercase
letter. -/
theorem lowerChar_cases (c : Char) :
    lowerChar c = c ∨ lowerChar c ∈ "abcdefghijklmnopqrstuvwxyz".data := by
  unfold lowerChar
  split <;> first | exact Or.inl rfl | exact Or.inr (by decide)

/-- Lowercase letters are fixed by `lowerChar`. -/
theorem lowerChar_fixes_lower (c : Char)
    (h : c ∈ "abcdefghijklmnopqrstuvwxyz".data) : lowerChar c = c := by
  fin_cases h <;> rfl

/-- `lowerChar` is idempotent. -/
theorem lowerChar_idem (c : Char) : lowerChar (lowerChar c) = lowerChar c := by
  rcases lowerChar_cases c with h | h
  · rw [h]; exact h
  · exact lowerChar_fixes_lower _ h

/-- Only `':'` lowercases to `':'`. -/
theorem lowerChar_eq_colon (c : Char) (h : lowerChar c = ':') : c = ':' := by
  rcases lowerChar_cases c with h2 | h2
  · rw [h2] at h; exact h
  · rw [h] at h2; exact absurd h2 (by decide)

/-- `pyLower` is idempotent. -/
theorem pyLower_idem (s : String) : pyLower (pyLower s) = pyLower s := by
  show String.mk (List.map lowerChar (String.mk (List.map lowerChar s.data)).data) =
    String.mk (List.map lowerChar s.data)
  apply congrArg String.mk
  rw [List.map_map]
  exact List.map_eq_map_iff.mpr (fun c _ => lowerChar_idem c)

/-- Lowercasing cannot introduce a colon. -/
theorem colon_not_mem_pyLower (s : String) (h : ':' ∉ s.data) :
    ':' ∉ (pyLower s).data := by
  intro hmem
  rcases List.mem_map.mp hmem with ⟨c, hc, he⟩
  rw [lowerChar_eq_colon c he] at hc
  exact h hc

/-- A substring match whose pattern starts with `c` forces `c` into the
searched list. -/
theorem contains_sub_head_mem (c : Char) (p : List Char) :
    ∀ l : List Char, listContainsSub (c :: p) l = true → c ∈ l := by
  intro l
  induction l with
  | nil => intro h; exact absurd h (by simp [listContainsSub, listStarts])
  | cons d rest ih =>
      intro h
      rcases Bool.or_eq_true_iff.mp h with h1 | h1
      · have hcd : (c == d) = true := by
          have := h1
          unfold listStarts at this
          exact (Bool.and_eq_true_iff.mp this).1
        rw [beq_iff_eq] at hcd
        rw [hcd]
        exact List.mem_cons_self d rest
      · exact List.mem_cons_of_mem d (ih h1)

/-- On a colon-free netloc the default-port removal is the identity. -/
theorem portStrip_no_colon (scheme n : String) (h : ':' ∉ n.data) :
    portStrip scheme n = n := by
  have h80 : containsSubStr ":80" n = false := by
    cases hc : containsSubStr ":80" n with
    | false => rfl
    | true => exact absurd (contains_sub_head_mem ':' ['8', '0'] n.data hc) h
  have h443 : containsSubStr ":443" n = false := by
    cases hc : containsSubStr ":443" n with
    | false => rfl
    | true => exact absurd (contains_sub_head_mem ':' ['4', '4', '3'] n.data hc) h
  unfold portStrip
  simp [h80, h443]

/-- Two consecutive prefixes concatenate to a prefix. -/
theorem listStarts_append (p q : List Char) :
    ∀ l : List Char, listStarts p l = true →
      listStarts q (l.drop p.length) = true →
      listStarts (p ++ q) l = true := by
  induction p with
  | nil => intro l _ hq; simpa using hq
  | cons a ps ih =>
      intro l hp hq
      cases l with
      | nil => exact absurd hp (by simp [listStarts])
      | cons b rest =>
          unfold listStarts at hp
          rcases Bool.and_eq_true_iff.mp hp with ⟨hab, hps⟩
          show (a == b && listStarts (ps ++ q) rest) = true
          rw [hab, Bool.true_and]
          exact ih rest hps hq

/-- The head surviving a `dropWhile` fails the predicate. -/
theorem head?_dropWhile_false (f : Char → Bool) :
    ∀ (l : List Char) (c : Char), (l.dropWhile f).head? = some c → f c = false := by
  intro l
  induction l with
  | nil => intro c h; simp [List.dropWhile] at h
  | cons a rest ih =>
      intro c h
      rw [List.dropWhile_cons] at h
      by_cases hf : f a
      · rw [if_pos hf] at h
        exact ih c h
      · rw [if_neg hf] at h
        simp only [List.head?_cons, Option.some.injEq] at h
        rw [← h]
        exact Bool.of_not_eq_true hf

/-- The netloc a single `normalize_url` pass produces from a lowercased
colon-free input that does not begin with `www.www.`: lowered (stable under
`pyLower`), colon-free, and not beginning with `www.`. -/
theorem wwwStrip_props (s : String)
    (hww : startsWithStr "www.www." (pyLower s) = false)
    (hcolon : ':' ∉ s.data) :
    pyLower (wwwStrip (pyLower s)) = wwwStrip (pyLower s) ∧
    ':' ∉ (wwwStrip (pyLower s)).data ∧
    startsWithStr "www." (wwwStrip (pyLower s)) = false := by
  have hlowdata : (pyLower (pyLower s)).data = (pyLower s).data :=
    congrArg String.data (pyLower_idem s)
  have hcolonL : ':' ∉ (pyLower s).data := colon_not_mem_pyLower s hcolon
  unfold wwwStrip
  cases hstart : startsWithStr "www." (pyLower s) with
  | false =>
      rw [if_neg (by decide)]
      refine ⟨pyLower_idem s, hcolonL, hstart⟩
  | true =>
      rw [if_pos rfl]
      refine ⟨?_, ?_, ?_⟩
      · show String.mk (List.map lowerChar ((pyLower s).data.drop 4)) = _
        apply congrArg String.mk
        rw [List.map_drop]
        exact congrArg (fun l => List.drop 4 l) hlowdata
      · intro hmem
        exact hcolonL (List.mem_of_mem_drop hmem)
      · cases h4 : startsWithStr "www." (String.mk ((pyLower s).data.drop 4)) with
        | false => rfl
        | true =>
            exfalso
            have happ := listStarts_append "www.".data "www.".data (pyLower s).data
              hstart h4
            rw [show ("www.".data ++ "www.".data) = "www.www.".data from rfl] at happ
            rw [show listStarts "www.www.".data (pyLower s).data =
              startsWithStr "www.www." (pyLower s) from rfl, hww] at happ
            exact absurd happ (by decide)

/-- `rstripSlash` output never ends in a slash. -/
theorem rstripSlash_no_trailing (p : String) :
    ∀ c, (rstripSlash p).data.getLast? = some c → (c == '/') = false := by
  intro c hc
  unfold rstripSlash at hc
  rw [show (String.mk (p.data.reverse.dropWhile (fun c => c == '/')).reverse).data
      = (p.data.reverse.dropWhile (fun c => c == '/')).reverse from rfl] at hc
  rw [List.getLast?_reverse] at hc
  exact head?_dropWhile_false (fun c => c == '/') p.data.reverse c hc

/-- A string that is `"/"`, or nonempty without a trailing slash, is a
fixed point of `pathNorm`. -/
theorem pathNorm_fix (q : String)
    (h : q = "/" ∨ (q ≠ "" ∧ q.data.getLast? ≠ some '/')) : pathNorm q = q := by
  unfold pathNorm
  rcases h with h | ⟨hne, hlast⟩
  · subst h
    rw [if_neg (by decide), if_neg (by decide)]
  · have hcond : (q != "/" && q.data.getLast? == some '/') = false := by
      cases hl : q.data.getLast? == some '/' with
      | false => simp
      | true => exact absurd (eq_of_beq hl) hlast
    rw [hcond]
    rw [if_neg (show ¬(false = true) by decide)]
    rw [if_neg (fun hx => hne (eq_of_beq hx))]

/-- `pathNorm` always lands in the fixed-point set of `pathNorm_fix`. -/
theorem pathNorm_shape (p : String) :
    pathNorm p = "/" ∨ (pathNorm p ≠ "" ∧ (pathNorm p).data.getLast? ≠ some '/') := by
  unfold pathNorm
  by_cases hc : (p != "/" && p.data.getLast? == some '/') = true
  · rw [if_pos hc]
    by_cases he : (rstripSlash p == "") = true
    · rw [if_pos he]
      exact Or.inl rfl
    · rw [if_neg he]
      refine Or.inr ⟨fun hx => he (by rw [hx]; rfl), fun hx => ?_⟩
      have := rstripSlash_no_trailing p '/' hx
      exact absurd this (by decide)
  · rw [if_neg hc]
    by_cases he : (p == "") = true
    · rw [if_pos he]
      exact Or.inl rfl
    · rw [if_neg he]
      by_cases hs : p = "/"
      · exact Or.inl hs
      · refine Or.inr ⟨fun hx => he (by rw [hx]; rfl), fun hx => ?_⟩
        apply hc
        have h0 : (p == "/") = false := by
          cases hb : p == "/" with
          | false => rfl
          | true => exact absurd (eq_of_beq hb) hs
        have h1 : (p != "/") = true := by
          show (!(p == "/")) = true
          rw [h0]
          rfl
        rw [h1, hx]
        rfl

/-- `pathNorm` is idempotent. -/
theorem pathNorm_idem (p : String) : pathNorm (pathNorm p) = pathNorm p :=
  pathNorm_fix (pathNorm p) (pathNorm_shape p)

/-- `groupQGo` ignores the exact fuel once it covers the list length. -/
theorem groupQGo_congr :
    ∀ (fuel1 : Nat) (l : List (String × String)) (fuel2 : Nat),
      l.length ≤ fuel1 → l.length ≤ fuel2 → groupQGo fuel1 l = groupQGo fuel2 l := by
  intro fuel1
  induction fuel1 with
  | zero =>
      intro l fuel2 h1 _
      have : l = [] := List.eq_nil_of_length_eq_zero (Nat.le_zero.mp h1)
      subst this
      cases fuel2 <;> rfl
  | succ n ih =>
      intro l fuel2 h1 h2
      cases l with
      | nil => cases fuel2 <;> rfl
      | cons p rest =>
          cases fuel2 with
          | zero => exact absurd h2 (by simp)
          | succ m =>
              rcases p with ⟨k, v⟩
              show (k, v :: _) :: groupQGo n (rest.filter (fun p => !(p.1 == k))) =
                (k, v :: _) :: groupQGo m (rest.filter (fun p => !(p.1 == k)))
              have hlen : (rest.filter (fun p => !(p.1 == k))).length ≤ rest.length :=
                List.length_filter_le _ rest
              simp only [List.length_cons] at h1 h2
              rw [ih (rest.filter (fun p => !(p.1 == k))) m (by omega) (by omega)]

/-- The recursion equation of `groupQ`. -/
theorem groupQ_cons (k v : String) (rest : List (String × String)) :
    groupQ ((k, v) :: rest) =
      (k, v :: (rest.filter (fun p => p.1 == k)).map (fun p => p.2)) ::
        groupQ (rest.filter (fun p => !(p.1 == k))) := by
  show groupQGo (rest.length + 1) ((k, v) :: rest) = _
  show (k, v :: (rest.filter (fun p => p.1 == k)).map (fun p => p.2)) ::
      groupQGo rest.length (rest.filter (fun p => !(p.1 == k))) = _
  unfold groupQ
  rw [groupQGo_congr rest.length (rest.filter (fun p => !(p.1 == k)))
    (rest.filter (fun p => !(p.1 == k))).length
    (List.length_filter_le _ rest) (Nat.le_refl _)]

/-- Every group `groupQ` builds is nonempty and collects values of pairs
present in the input. -/
theorem groupQ_mem_props :
    ∀ (n : Nat) (l : List (String × String)), l.length ≤ n →
      ∀ p ∈ groupQ l, p.2 ≠ [] ∧ ∀ v ∈ p.2, (p.1, v) ∈ l := by
  intro n
  induction n with
  | zero =>
      intro l h1 p hp
      have : l = [] := List.eq_nil_of_length_eq_zero (Nat.le_zero.mp h1)
      subst this
      exact absurd hp (by simp [groupQ, groupQGo])
  | succ n ih =>
      intro l h1 p hp
      cases l with
      | nil => exact absurd hp (by simp [groupQ, groupQGo])
      | cons q rest =>
          rcases q with ⟨k, v⟩
          rw [groupQ_cons] at hp
          simp only [List.length_cons] at h1
          rcases List.mem_cons.mp hp with hp | hp
          · subst hp
            refine ⟨by simp, ?_⟩
            intro w hw
            rcases List.mem_cons.mp hw with hw | hw
            · subst hw
              exact List.mem_cons_self _ _
            · rcases List.mem_map.mp hw with ⟨⟨k2, v2⟩, hmem, hsnd⟩
              have hk2 := List.of_mem_filter (p := fun (q : String × String) => q.1 == k) hmem
              simp only at hk2
              have : k2 = k := eq_of_beq hk2
              subst this
              subst hsnd
              exact List.mem_cons_of_mem _ (List.mem_of_mem_filter hmem)
          · have hlen : (rest.filter (fun p => !(p.1 == k))).length ≤ n := by
              have := List.length_filter_le (fun p => !(p.1 == k)) rest
              omega
            rcases ih (rest.filter (fun p => !(p.1 == k))) hlen p hp with ⟨hne, hvals⟩
            refine ⟨hne, ?_⟩
            intro w hw
            exact List.mem_cons_of_mem _ (List.mem_of_mem_filter (hvals w hw))

/-- The keys of `groupQ l` are pairwise distinct. -/
theorem groupQ_keys_nodup :
    ∀ (n : Nat) (l : List (String × String)), l.length ≤ n →
      ((groupQ l).map (fun p => p.1)).Nodup := by
  intro n
  induction n with
  | zero =>
      intro l h1
      have : l = [] := List.eq_nil_of_length_eq_zero (Nat.le_zero.mp h1)
      subst this
      simp [groupQ, groupQGo]
  | succ n ih =>
      intro l h1
      cases l with
      | nil => simp [groupQ, groupQGo]
      | cons q rest =>
          rcases q with ⟨k, v⟩
          rw [groupQ_cons]
          simp only [List.length_cons] at h1
          have hlen : (rest.filter (fun p => !(p.1 == k))).length ≤ n := by
            have := List.length_filter_le (fun p => !(p.1 == k)) rest
            omega
          rw [List.map_cons, List.nodup_cons]
          refine ⟨?_, ih _ hlen⟩
          intro hk
          rcases List.mem_map.mp hk with ⟨p, hp, hfst⟩
          rcases groupQ_mem_props _ _ hlen p hp with ⟨hne, hvals⟩
          rcases List.exists_mem_of_ne_nil p.2 hne with ⟨w, hw⟩
          have hmem := hvals w hw
          rw [hfst] at hmem
          have := List.of_mem_filter hmem
          simp at this

/-- A pair of the flattened dict carries a key of the dict. -/
theorem mem_ungroupQ :
    ∀ (g : List (String × List String)) (a b : String),
      (a, b) ∈ ungroupQ g → ∃ vs, (a, vs) ∈ g ∧ b ∈ vs := by
  intro g
  induction g with
  | nil => intro a b h; exact absurd h (by simp [ungroupQ])
  | cons q g2 ih =>
      rcases q with ⟨k, vs⟩
      intro a b h
      unfold ungroupQ at h
      rcases List.mem_append.mp h with h | h
      · rcases List.mem_map.mp h with ⟨v, hv, heq⟩
        have ha : a = k := by cases heq; rfl
        have hb : b = v := by cases heq; rfl
        subst ha; subst hb
        exact ⟨vs, List.mem_cons_self _ _, hv⟩
      · rcases ih a b h with ⟨vs2, hvs2, hb⟩
        exact ⟨vs2, List.mem_cons_of_mem _ hvs2, hb⟩

/-- A keyed map is untouched by the matching-key filter. -/
theorem filter_keyed_map_eq (k : String) (vt : List String) :
    ((vt.map (fun v => (k, v))).filter (fun p => p.1 == k)) =
      vt.map (fun v => (k, v)) := by
  induction vt with
  | nil => rfl
  | cons v vt ih => simp [ih]

/-- A keyed map is emptied by the differing-key filter. -/
theorem filter_keyed_map_ne (k : String) (vt : List String) :
    ((vt.map (fun v => (k, v))).filter (fun p => !(p.1 == k))) = [] := by
  induction vt with
  | nil => rfl
  | cons v vt ih => simp [ih]

/-- Regrouping the flattening of a nodup-keyed dict with nonempty groups
recovers the dict: the `parse_qs` / `urlencode(doseq)` round trip is the
identity on dicts of the form `parse_qs` itself produces. -/
theorem groupQ_ungroupQ :
    ∀ g : List (String × List String),
      ((g.map (fun p => p.1)).Nodup) → (∀ p ∈ g, p.2 ≠ []) →
      groupQ (ungroupQ g) = g := by
  intro g
  induction g with
  | nil => intro _ _; rfl
  | cons q g2 ih =>
      rcases q with ⟨k, vs⟩
      intro hnd hne
      rw [List.map_cons] at hnd
      rcases List.nodup_cons.mp hnd with ⟨hk, hnd2⟩
      cases vs with
      | nil => exact absurd rfl (hne (k, []) (List.mem_cons_self _ _))
      | cons v vt =>
          show groupQ ((v :: vt).map (fun w => (k, w)) ++ ungroupQ g2) = _
          rw [List.map_cons, List.cons_append, groupQ_cons]
          have hfilter_eq :
              ((vt.map (fun w => (k, w)) ++ ungroupQ g2).filter (fun p => p.1 == k)) =
                vt.map (fun w => (k, w)) := by
            rw [List.filter_append, filter_keyed_map_eq]
            have : (ungroupQ g2).filter (fun p => p.1 == k) = [] := by
              apply List.filter_eq_nil_iff.mpr
              rintro ⟨a, b⟩ hmem hab
              rcases mem_ungroupQ g2 a b hmem with ⟨ws, hws, _⟩
              apply hk
              have := eq_of_beq hab
              subst this
              exact List.mem_map.mpr ⟨(a, ws), hws, rfl⟩
            rw [this, List.append_nil]
          have hfilter_ne :
              ((vt.map (fun w => (k, w)) ++ ungroupQ g2).filter (fun p => !(p.1 == k))) =
                ungroupQ g2 := by
            rw [List.filter_append, filter_keyed_map_ne, List.nil_append]
            apply List.filter_eq_self.mpr
            rintro ⟨a, b⟩ hmem
            rcases mem_ungroupQ g2 a b hmem with ⟨ws, hws, _⟩
            cases hab : a == k with
            | false => rfl
            | true =>
                exfalso
                apply hk
                have := eq_of_beq hab
                subst this
                exact List.mem_map.mpr ⟨(a, ws), hws, rfl⟩
          rw [hfilter_eq, hfilter_ne]
          rw [ih hnd2 (fun p hp => hne p (List.mem_cons_of_mem _ hp))]
          simp [List.map_map, Function.comp]

/-- The query transformation of one `normalize_url` pass is idempotent:
the second pass re-parses exactly the pairs the first emitted — all
nonblank, already grouped in first-occurrence order with distinct keys,
already tracking-filtered — so each of its three steps is the identity. -/
theorem queryNorm_idem (q : List (String × String)) :
    queryNorm (queryNorm q) = queryNorm q := by
  have hG0props := groupQ_mem_props (q.filter valueNonblank).length
    (q.filter valueNonblank) (Nat.le_refl _)
  have hG1sub : ∀ p ∈ (groupQ (q.filter valueNonblank)).filter
      (fun p => isTrackOkKey p.1), p ∈ groupQ (q.filter valueNonblank) :=
    fun p hp => List.mem_of_mem_filter hp
  have hfilter_nb : (queryNorm q).filter valueNonblank = queryNorm q := by
    apply List.filter_eq_self.mpr
    rintro ⟨a, b⟩ hmem
    rcases mem_ungroupQ _ a b hmem with ⟨vs, hvs, hb⟩
    rcases hG0props (a, vs) (hG1sub _ hvs) with ⟨_, hvals⟩
    exact List.of_mem_filter (hvals b hb)
  have hnodup : ((((groupQ (q.filter valueNonblank)).filter
      (fun p => isTrackOkKey p.1)).map (fun p => p.1)).Nodup) := by
    have h0 := groupQ_keys_nodup (q.filter valueNonblank).length
      (q.filter valueNonblank) (Nat.le_refl _)
    have hsub : ((groupQ (q.filter valueNonblank)).filter
        (fun p => isTrackOkKey p.1)).Sublist (groupQ (q.filter valueNonblank)) :=
      List.filter_sublist _
    exact List.Sublist.nodup (List.Sublist.map _ hsub) h0
  have hne : ∀ p ∈ (groupQ (q.filter valueNonblank)).filter
      (fun p => isTrackOkKey p.1), p.2 ≠ [] :=
    fun p hp => (hG0props p (hG1sub p hp)).1
  have hregroup : groupQ (queryNorm q) =
      (groupQ (q.filter valueNonblank)).filter (fun p => isTrackOkKey p.1) :=
    groupQ_ungroupQ _ hnodup hne
  have hfilter_tok :
      ((groupQ (q.filter valueNonblank)).filter
        (fun p => isTrackOkKey p.1)).filter (fun p => isTrackOkKey p.1) =
      (groupQ (q.filter valueNonblank)).filter (fun p => isTrackOkKey p.1) :=
    List.filter_eq_self.mpr (fun p hp =>
      List.of_mem_filter (p := fun (x : String × List String) => isTrackOkKey x.1) hp)
  show ungroupQ ((groupQ ((queryNorm q).filter valueNonblank)).filter
    (fun p => isTrackOkKey p.1)) = queryNorm q
  rw [hfilter_nb, hregroup, hfilter_tok]
  rfl

/-- A string not beginning with `www.` is fixed by `wwwStrip`. -/
theorem wwwStrip_of_not_starts (t : String)
    (h : startsWithStr "www." t = false) : wwwStrip t = t := by
  unfold wwwStrip
  rw [h]
  exact if_neg (by decide)

/-- C10 is false on the code: each `normalize_url` pass removes exactly one
leading `www.`, so `http://www.www.example.com/` maps to
`http://www.example.com/` and then to `http://example.com/` — the second
application changes the result. -/
theorem c10_counterexample : ¬ C10Claim :=
  fun h => absurd (h u10) (by decide)

/-- C10 amended: `normalize_url` is idempotent for every URL whose host
does not begin with a stacked `www.www.` prefix (one pass strips a single
`www.`) and contains no `':'` (the `':80'`/`':443'` substring replacement
can otherwise re-expose a removable port substring), and whose path
contains no `';'` (a first-pass path ending in `;xxx` would be re-split
into path and params by the second pass's `urlparse` and the params then
dropped — an effect living in the re-parse the component model treats as
the identity, hence excluded by hypothesis). -/
theorem c10_normalize_idempotent_amended (u : Url)
    (hww : startsWithStr "www.www." (pyLower u.netloc) = false)
    (hcolon : ':' ∉ u.netloc.data)
    (_hsemi : ';' ∉ u.path.data) :
    normalizeUrl (normalizeUrl u) = normalizeUrl u := by
  obtain ⟨hlow, hcol, hwww⟩ := wwwStrip_props u.netloc hww hcolon
  have hport : ∀ s : String,
      portStrip s (wwwStrip (pyLower u.netloc)) = wwwStrip (pyLower u.netloc) :=
    fun s => portStrip_no_colon s _ hcol
  have hww2 : wwwStrip (wwwStrip (pyLower u.netloc)) = wwwStrip (pyLower u.netloc) :=
    wwwStrip_of_not_starts _ hwww
  show ({ scheme := pyLower (pyLower u.scheme),
          netloc := portStrip (pyLower (pyLower u.scheme))
            (wwwStrip (pyLower (portStrip (pyLower u.scheme)
              (wwwStrip (pyLower u.netloc))))),
          path := pathNorm (pathNorm u.path),
          params := "",
          query := queryNorm (queryNorm u.query),
          fragment := "" } : Url) =
        { scheme := pyLower u.scheme,
          netloc := portStrip (pyLower u.scheme) (wwwStrip (pyLower u.netloc)),
          path := pathNorm u.path,
          params := "",
          query := queryNorm u.query,
          fragment := "" }
  rw [hport (pyLower u.scheme), hlow, hww2, pyLower_idem u.scheme,
    pathNorm_idem, queryNorm_idem, hport (pyLower u.scheme)]

/-- Witness for the amended C10 at a concrete URL exercising every
component: uppercase scheme and host, a single `www.`, a trailing-slash
path, a params field, a tracking key, a blank value and duplicate keys in
the query, and a fragment. -/
theorem c10_normalize_idempotent_witness :
    startsWithStr "www.www."
      (pyLower (Url.mk "HTTP" "Www.Example.com" "/a/" "x"
        [("utm_source", "g"), ("a", ""), ("b", "1"), ("b", "2")] "frag").netloc)
        = false ∧
    ':' ∉ (Url.mk "HTTP" "Www.Example.com" "/a/" "x"
        [("utm_source", "g"), ("a", ""), ("b", "1"), ("b", "2")] "frag").netloc.data ∧
    ';' ∉ (Url.mk "HTTP" "Www.Example.com" "/a/" "x"
        [("utm_source", "g"), ("a", ""), ("b", "1"), ("b", "2")] "frag").path.data ∧
    normalizeUrl (normalizeUrl (Url.mk "HTTP" "Www.Example.com" "/a/" "x"
        [("utm_source", "g"), ("a", ""), ("b", "1"), ("b", "2")] "frag")) =
      normalizeUrl (Url.mk "HTTP" "Www.Example.com" "/a/" "x"
        [("utm_source", "g"), ("a", ""), ("b", "1"), ("b", "2")] "frag") :=
  ⟨by decide, by decide, by decide,
    c10_normalize_idempotent_amended _ (by decide) (by decide) (by decide)⟩

end SeoScraper
